import Mathlib

/-!
# Room and session state machine of `server.js`

A shallow embedding of the Socket.IO handlers of `src/server.js`
(`joinRoom`, `sendMessage`, `disconnect` and the eviction callback handed to
`setTimeout`), followed by the properties of the specification.

Conventions of the embedding.

* The two module-level stores `rooms` and `users` are JavaScript `Map`s.  A
  `Map` is an insertion-ordered association: `JsMap`.
* Client payloads are JSON data.  A payload field is a primitive (`JsVal`) and a
  payload record (`user`, `message`) is `Option JsObj`, where `none` stands for
  an absent (`undefined` or `null`) record.
* A handler is a function from the state before to the state after, together
  with the list of events it emits, in emission order.
* A handler runs at clock value `now`, the value of its first clock read.
  `sendMessage` reads the clock twice (`Date.now()` on line 53, `new Date()` on
  line 56): it takes both values, `now` and `stamp`.
* `socket.join`, the removal of a closed socket from every broadcast group, and
  the timer queue belong to the runtime (Socket.IO, Node); they are the `subs`
  and `timers` components of `ServerState`.
-/

namespace Ask

/-! ## JavaScript values, maps and objects -/

/-- JavaScript primitives that can occur in a JSON payload field, and `Date`s. -/
inductive JsVal where
  | undefined
  | null
  | bool (b : Bool)
  | num (n : Int)
  | str (s : String)
  | date (ms : Nat)
  deriving DecidableEq, Repr

/-- JavaScript `Map`: an association in insertion order. -/
abbrev JsMap (κ α : Type) := List (κ × α)

namespace JsMap

variable {κ α : Type} [DecidableEq κ]

/-- `Map.prototype.get`: the value bound to `k`, `none` for `undefined`. -/
def get : JsMap κ α → κ → Option α
  | [], _ => none
  | (k', v) :: m, k => if k' = k then some v else get m k

/-- `Map.prototype.has`. -/
def has (m : JsMap κ α) (k : κ) : Bool := (get m k).isSome

/-- `Map.prototype.set`: an existing key keeps its position and takes the new
value; a new key is added at the end. -/
def set : JsMap κ α → κ → α → JsMap κ α
  | [], k, v => [(k, v)]
  | (k', v') :: m, k, v => if k' = k then (k', v) :: m else (k', v') :: set m k v

/-- `Map.prototype.delete`. -/
def delete (m : JsMap κ α) (k : κ) : JsMap κ α := m.filter (fun e => decide (e.1 ≠ k))

/-- `Array.from(m.values())`. -/
def values (m : JsMap κ α) : List α := m.map Prod.snd

/-- `Array.from(m.keys())`. -/
def keys (m : JsMap κ α) : List κ := m.map Prod.fst

/-- `Map.prototype.size`. -/
def size (m : JsMap κ α) : Nat := m.length

end JsMap

/-- A JSON object: its own properties in definition order. -/
abbrev JsObj := JsMap String JsVal

/-- Property read `o.k`: a missing property reads as `undefined`. -/
def prop (o : JsObj) (k : String) : JsVal := (JsMap.get o k).getD JsVal.undefined

/-- Object spread `{ ...base, ...src }`: every property of `src` is defined on
`base` in turn; spreading an absent record defines nothing. -/
def spread (base : JsObj) (src : Option JsObj) : JsObj :=
  match src with
  | none => base
  | some o => o.foldl (fun acc e => JsMap.set acc e.1 e.2) base

/-- `Array.prototype.slice(start)` with one argument: a negative `start` counts
from the end and is clamped at the beginning of the array. -/
def slice {α : Type} (xs : List α) (start : Int) : List α :=
  if start < 0 then xs.drop (max ((xs.length : Int) + start) 0).toNat
  else xs.drop (min start (xs.length : Int)).toNat

/-! ## Data model -/

/-- The `user` field of a stored message: `{ id, name, role }`. -/
structure MessageUser where
  id : JsVal
  name : JsVal
  role : JsVal
  deriving DecidableEq, Repr

/-- The object built by `sendMessage` (lines 52-57). -/
structure Message where
  id : String
  text : JsVal
  user : MessageUser
  timestamp : Nat
  deriving DecidableEq, Repr

/-- The room object created on line 34. -/
structure Room where
  id : JsVal
  users : JsMap String JsObj
  messages : List Message
  questions : List JsVal
  polls : List JsVal
  deriving DecidableEq, Repr

/-- A pending `setTimeout` of the eviction callback: the room id captured by the
closure, the clock value when it was scheduled and the delay in milliseconds. -/
structure Timer where
  roomId : JsVal
  setAt : Nat
  delay : Nat
  deriving DecidableEq, Repr

/-- The earliest clock value at which the runtime may run the callback. -/
def Timer.due (t : Timer) : Nat := t.setAt + t.delay

/-- Addressee of an outbound event. -/
inductive Target where
  /-- Addressee `socket.emit`: the connection itself. -/
  | socket (sid : String)
  /-- Addressee `socket.to(roomId).emit`: the broadcast group of `roomId`
  without the connection. -/
  | roomExcept (roomId : JsVal) (sid : String)
  /-- Addressee `io.to(roomId).emit`: the whole broadcast group of `roomId`. -/
  | room (roomId : JsVal)
  deriving DecidableEq, Repr

/-- The `room` object of a `roomData` event (line 40). -/
structure RoomData where
  id : JsVal
  users : List JsObj
  messages : List Message
  questions : List JsVal
  polls : List JsVal
  deriving DecidableEq, Repr

/-- Outbound events with their payloads. -/
inductive Payload where
  | userJoined (user : JsObj) (users : List JsObj)
  | roomData (room : RoomData)
  | newMessage (m : Message)
  | userLeft (userId : String) (users : List JsObj)
  | error (message : String)
  deriving DecidableEq, Repr

/-- One emitted event. -/
structure Emit where
  target : Target
  payload : Payload
  deriving DecidableEq, Repr

/-- The server state: the stores `rooms` (RoomStore) and `users`
(ConnectionRegistry) of lines 23-24, the pending timers, the broadcast-group
subscriptions held by the transport, and the last clock value read. -/
structure ServerState where
  rooms : JsMap JsVal Room
  users : JsMap String JsObj
  timers : List Timer
  subs : List (String × JsVal)
  clock : Nat
  deriving DecidableEq, Repr

/-- The state at start-up: both stores empty. -/
def init : ServerState :=
  { rooms := [], users := [], timers := [], subs := [], clock := 0 }

/-! ## Handlers -/

/-- The room literal of line 34. -/
def newRoom (roomId : JsVal) : Room :=
  { id := roomId, users := [], messages := [], questions := [], polls := [] }

/-- The member record `{ id: socket.id, ...user, joinedAt: new Date() }`. -/
def memberRecord (sid : String) (user : Option JsObj) (now : Nat) : JsObj :=
  JsMap.set (spread [("id", JsVal.str sid)] user) "joinedAt" (JsVal.date now)

/-- The registry entry `{ ...user, roomId, socketId: socket.id }`. -/
def registryEntry (sid : String) (roomId : JsVal) (user : Option JsObj) : JsObj :=
  JsMap.set (JsMap.set (spread [] user) "roomId" roomId) "socketId" (JsVal.str sid)

/-- The `user` field of `userJoined`: `{ id: socket.id, ...user }`. -/
def joinedUser (sid : String) (user : Option JsObj) : JsObj :=
  spread [("id", JsVal.str sid)] user

/-- The snapshot `{ ...room, users: Array.from(room.users.values()),
messages: room.messages.slice(-50) }`. -/
def roomSnapshot (room : Room) : RoomData :=
  { id := room.id, users := JsMap.values room.users, messages := slice room.messages (-50),
    questions := room.questions, polls := room.polls }

/-- `socket.join(roomId)`: the subscriptions of a socket form a set. -/
def subscribe (subs : List (String × JsVal)) (sid : String) (roomId : JsVal) :
    List (String × JsVal) :=
  if (sid, roomId) ∈ subs then subs else subs ++ [(sid, roomId)]

/-- Lines 33-35: create the room when the id is not a key of `rooms`. -/
def ensureRoom (rooms : JsMap JsVal Room) (roomId : JsVal) : JsMap JsVal Room :=
  if JsMap.has rooms roomId then rooms else JsMap.set rooms roomId (newRoom roomId)

/-- The `joinRoom` handler (lines 30-46) run by connection `sid` at clock value
`now`.  Line 41 reads `user.name`, which throws when `user` is absent; the
`catch` then emits `error` after everything before has taken effect.  The
fields of a payload are primitives here, and turning a primitive into a string
on line 41 does not throw: a `name` or `roomId` that is itself an object is
outside this model. -/
def joinRoom (now : Nat) (sid : String) (roomId : JsVal) (user : Option JsObj)
    (s : ServerState) : ServerState × List Emit :=
  let subs := subscribe s.subs sid roomId
  let rooms := ensureRoom s.rooms roomId
  match JsMap.get rooms roomId with
  | none =>
    ({ s with subs := subs, rooms := rooms },
      [{ target := Target.socket sid, payload := Payload.error "Failed to join room" }])
  | some room =>
    let room1 : Room := { room with users := JsMap.set room.users sid (memberRecord sid user now) }
    let s1 : ServerState :=
      { s with
        subs := subs
        rooms := JsMap.set rooms roomId room1
        users := JsMap.set s.users sid (registryEntry sid roomId user) }
    let out : List Emit :=
      [{ target := Target.roomExcept roomId sid,
         payload := Payload.userJoined (joinedUser sid user) (JsMap.values room1.users) },
       { target := Target.socket sid, payload := Payload.roomData (roomSnapshot room1) }]
    match user with
    | some _ => (s1, out)
    | none =>
      (s1, out ++ [{ target := Target.socket sid, payload := Payload.error "Failed to join room" }])

/-- The `sendMessage` handler (lines 48-64).  `now` is the value of `Date.now()` on
line 53 and `stamp` the value of `new Date()` on line 56.  An absent `message` or
`user` makes `message.text` or `user.id` throw before the log is touched. -/
def sendMessage (now stamp : Nat) (sid : String) (roomId : JsVal) (message user : Option JsObj)
    (s : ServerState) : ServerState × List Emit :=
  match JsMap.get s.rooms roomId with
  | none => (s, [])
  | some room =>
    match message, user with
    | some m, some u =>
      let newMessage : Message :=
        { id := toString now
          text := prop m "text"
          user := { id := prop u "id", name := prop u "name", role := prop u "role" }
          timestamp := stamp }
      ({ s with rooms := JsMap.set s.rooms roomId
                  { room with messages := room.messages ++ [newMessage] } },
        [{ target := Target.room roomId, payload := Payload.newMessage newMessage }])
    | _, _ =>
      (s, [{ target := Target.socket sid, payload := Payload.error "Failed to send message" }])

/-- The `disconnect` handler (lines 66-86) run at clock value `now`. -/
def disconnect (now : Nat) (sid : String) (s : ServerState) : ServerState × List Emit :=
  match JsMap.get s.users sid with
  | none => (s, [])
  | some user =>
    let roomId := prop user "roomId"
    match JsMap.get s.rooms roomId with
    | some room =>
      let room1 : Room := { room with users := JsMap.delete room.users sid }
      let rooms := JsMap.set s.rooms roomId room1
      if JsMap.size room1.users > 0 then
        ({ s with rooms := rooms, users := JsMap.delete s.users sid },
          [{ target := Target.roomExcept roomId sid,
             payload := Payload.userLeft sid (JsMap.values room1.users) }])
      else
        ({ s with
            rooms := rooms
            timers := s.timers ++ [{ roomId := roomId, setAt := now, delay := 60000 }]
            users := JsMap.delete s.users sid }, [])
    | none => ({ s with users := JsMap.delete s.users sid }, [])

/-- The callback given to `setTimeout` (lines 77-82). -/
def evictionCallback (roomId : JsVal) (s : ServerState) : ServerState :=
  match JsMap.get s.rooms roomId with
  | some room =>
    if JsMap.size room.users = 0 then { s with rooms := JsMap.delete s.rooms roomId } else s
  | none => s

/-! ## Executions -/

/-- What the server can be asked to run: an inbound event of a connection, the
close of a connection, or a pending timer running out.  The `lag` of a
`sendMessage` is the time in milliseconds between the two clock reads of its
handler. -/
inductive Event where
  | joinRoom (sid : String) (roomId : JsVal) (user : Option JsObj)
  | sendMessage (sid : String) (roomId : JsVal) (message user : Option JsObj) (lag : Nat)
  | disconnect (sid : String)
  | timeout (t : Timer)
  deriving DecidableEq, Repr

/-- One run-to-completion step at clock value `now`.  The clock never goes
back; after a `sendMessage` it stands at the value of the second read.  A closed socket has left every broadcast group before its `disconnect`
listener runs.  A timer runs once, only while pending, and never before it is
due (it may run later). -/
def step (s : ServerState) (now : Nat) (e : Event) : Option (ServerState × List Emit) :=
  if now < s.clock then none
  else
    match e with
    | Event.joinRoom sid roomId user => some (joinRoom now sid roomId user { s with clock := now })
    | Event.sendMessage sid roomId message user lag =>
      some (sendMessage now (now + lag) sid roomId message user { s with clock := now + lag })
    | Event.disconnect sid =>
      some (disconnect now sid
        { s with clock := now, subs := s.subs.filter (fun p => decide (p.1 ≠ sid)) })
    | Event.timeout t =>
      if t ∈ s.timers ∧ t.due ≤ now then
        some (evictionCallback t.roomId { s with clock := now, timers := s.timers.erase t }, [])
      else none

/-- Run a sequence of timed events; `none` when some step is not possible. -/
def run (s : ServerState) : List (Nat × Event) → Option ServerState
  | [] => some s
  | (now, e) :: rest =>
    match step s now e with
    | none => none
    | some (s1, _) => run s1 rest

/-- The ids of the rooms whose member map has `sid` as a key. -/
def memberRooms (s : ServerState) (sid : String) : List JsVal :=
  JsMap.keys (s.rooms.filter (fun e => JsMap.has e.2.users sid))

/-! ## Notions used to state the properties -/

/-- The room object that line 36 reads for `roomId`: the stored one, or the one line 34
has just created. -/
def roomBefore (s : ServerState) (roomId : JsVal) : Room :=
  (JsMap.get s.rooms roomId).getD (newRoom roomId)

/-- The effect of line 37 on a room object. -/
def withMember (now : Nat) (sid : String) (user : Option JsObj) (room : Room) : Room :=
  { room with users := JsMap.set room.users sid (memberRecord sid user now) }

/-- The keys of `rooms` are pairwise distinct. -/
def KeysNodup (s : ServerState) : Prop := (JsMap.keys s.rooms).Nodup

/-- The `id` field of every stored room is the key it is stored under. -/
def RoomIdsMatch (s : ServerState) : Prop :=
  ∀ r room, JsMap.get s.rooms r = some room → room.id = r

/-- Every registry entry names a stored room that has the connection as a member. -/
def RegistrySound (s : ServerState) : Prop :=
  ∀ c e, JsMap.get s.users c = some e →
    ∃ room, JsMap.get s.rooms (prop e "roomId") = some room ∧ JsMap.has room.users c = true

/-- Every stored room without members has a pending eviction timer for its id. -/
def EmptyRoomsTimed (s : ServerState) : Prop :=
  ∀ r room, JsMap.get s.rooms r = some room → JsMap.size room.users = 0 →
    ∃ t, t ∈ s.timers ∧ t.roomId = r

/-- Connection `sid` has, for every stored room it is a member of, a registry entry naming
that room. -/
def MemberRegistered (sid : String) (s : ServerState) : Prop :=
  ∀ r room, JsMap.get s.rooms r = some room → JsMap.has room.users sid = true →
    ∃ e, JsMap.get s.users sid = some e ∧ prop e "roomId" = r

/-- The event is not a `joinRoom` issued by connection `sid` while its registry entry names
another room. -/
def joinsRegisteredRoom (sid : String) (s : ServerState) : Event → Bool
  | Event.joinRoom c roomId _ =>
    if c = sid then
      match JsMap.get s.users sid with
      | none => true
      | some e => decide (prop e "roomId" = roomId)
    else true
  | _ => true

/-- Connection `sid` does not join a second room along the run: every `joinRoom` it issues
is issued while it has no registry entry or while its entry names the room joined.  The
joins of other connections are not restricted. -/
def singleRoomRun (sid : String) (s : ServerState) : List (Nat × Event) → Bool
  | [] => true
  | (now, e) :: rest =>
    joinsRegisteredRoom sid s e &&
      match step s now e with
      | none => true
      | some (s1, _) => singleRoomRun sid s1 rest

/-- The `roomData` events of an emission list, with their addressees. -/
def sentRoomData (out : List Emit) : List (Target × RoomData) :=
  out.filterMap (fun e =>
    match e.payload with
    | Payload.roomData d => some (e.target, d)
    | _ => none)

/-- The event is a `joinRoom` for room `roomId`. -/
def isJoinOf (roomId : JsVal) : Event → Bool
  | Event.joinRoom _ r _ => decide (r = roomId)
  | _ => false

/-! ### Sample inputs -/

/-- A room id. -/
def r1 : JsVal := JsVal.str "r1"

/-- Another room id. -/
def r2 : JsVal := JsVal.str "r2"

/-- The profile `{name: "Alice", role: "host"}`. -/
def alice : Option JsObj := some [("name", JsVal.str "Alice"), ("role", JsVal.str "host")]

/-- The profile `{name: "Bob"}`. -/
def bob : Option JsObj := some [("name", JsVal.str "Bob")]

/-- Connection `a` joins `r1`, then `r2`. -/
def twoRoomJoins : List (Nat × Event) :=
  [(0, Event.joinRoom "a" r1 alice), (5, Event.joinRoom "a" r2 alice)]

/-- Connection `a` joins `r1`, then `r2`, then closes. -/
def twoRoomJoinsThenClose : List (Nat × Event) :=
  [(0, Event.joinRoom "a" r1 alice), (5, Event.joinRoom "a" r2 alice), (9, Event.disconnect "a")]

/-- Two connections in `r1` with a message and a rejoin, a third connection in `r2`, and
one close. -/
def sampleRun : List (Nat × Event) :=
  [(0, Event.joinRoom "a" r1 alice), (2, Event.joinRoom "b" r1 bob),
   (3, Event.sendMessage "a" r1 (some [("text", JsVal.str "hi")])
        (some [("id", JsVal.str "a"), ("name", JsVal.str "Alice"), ("role", JsVal.str "host")])
        0),
   (4, Event.joinRoom "a" r1 alice), (7, Event.joinRoom "c" r2 bob), (8, Event.disconnect "b")]

/-- Room `r1` empties at 1000, is joined again at 30000 and empties again at 60000. -/
def emptiedTwice : List (Nat × Event) :=
  [(0, Event.joinRoom "a" r1 alice), (1000, Event.disconnect "a"),
   (30000, Event.joinRoom "b" r1 bob), (60000, Event.disconnect "b")]

/-- Room `r1` empties at 1000 and is joined at 61000, before the timer set at 1000 has
run. -/
def joinBeforeLateTimer : List (Nat × Event) :=
  [(61000, Event.joinRoom "b" r1 bob)]

/-- Room `roomId` is not stored, or it is stored without members. -/
def EmptyOrAbsent (roomId : JsVal) (s : ServerState) : Prop :=
  ∀ room, JsMap.get s.rooms roomId = some room → JsMap.size room.users = 0

/-- A stored log of 52 messages, with ids `0` to `51`. -/
def longLog : List Message :=
  (List.range 52).map (fun i =>
    { id := toString i, text := JsVal.str "hi",
      user := { id := JsVal.str "a", name := JsVal.str "Alice", role := JsVal.str "host" },
      timestamp := i })

/-- A state whose only room `r1` has member `a` and the log `longLog`. -/
def longLogState : ServerState :=
  { rooms := [(r1, { id := r1, users := [("a", memberRecord "a" alice 0)], messages := longLog,
                     questions := [], polls := [] })]
    users := [("a", registryEntry "a" r1 alice)]
    timers := []
    subs := [("a", r1)]
    clock := 60 }

/-- The state reached by `sampleRun`: `a` alone in `r1`, `c` alone in `r2`. -/
def sampleState : ServerState := (run init sampleRun).getD init

/-! ### Delivery and further notions -/

/-- Modelled from the spec: the delivery of an outbound event by the transport (Socket.IO,
not part of `server.js`), after the events table of section 6 and the glossary entry
"Broadcast group".  Given the broadcast-group subscriptions, `socket.emit` reaches the
connection itself, `socket.to(r).emit` the connections subscribed to `r` other than the
emitting one, and `io.to(r).emit` every connection subscribed to `r`.  (The private group
every socket has under its own id is not part of `subs`.) -/
def recipients (subs : List (String × JsVal)) : Target → List String
  | Target.socket sid => [sid]
  | Target.roomExcept r sid =>
    (subs.filter (fun p => decide (p.2 = r) && decide (p.1 ≠ sid))).map Prod.fst
  | Target.room r => (subs.filter (fun p => decide (p.2 = r))).map Prod.fst

/-- Every registered connection is subscribed to the broadcast group of the room its
registry entry names. -/
def RegistrySubscribed (s : ServerState) : Prop :=
  ∀ c e, JsMap.get s.users c = some e → (c, prop e "roomId") ∈ s.subs

/-- The ids of every stored log are the decimal strings of a list of clock values that
never decreases along the log and does not exceed the clock of the state. -/
def IdsFromClocks (s : ServerState) : Prop :=
  ∀ r room, JsMap.get s.rooms r = some room →
    ∃ ts : List Nat, room.messages.map (fun m => m.id) = ts.map toString ∧
      ts.Pairwise (fun a b => a ≤ b) ∧ ∀ t ∈ ts, t ≤ s.clock

/-- The message object built on lines 52-57 from the payloads: `now` is the value of
`Date.now()` and `stamp` the value of `new Date()`. -/
def builtMessage (now stamp : Nat) (m u : JsObj) : Message :=
  { id := toString now
    text := prop m "text"
    user := { id := prop u "id", name := prop u "name", role := prop u "role" }
    timestamp := stamp }

/-- The value of a decimal digit character. -/
def digitValue (c : Char) : Nat := c.toNat - 48

/-- The number a list of decimal digit characters denotes, most significant first. -/
def decimalValue : List Char → Nat
  | [] => 0
  | c :: ds => digitValue c * 10 ^ ds.length + decimalValue ds

/-- The payload `{text: "hi"}`. -/
def hiMessage : Option JsObj := some [("text", JsVal.str "hi")]

/-- The payload `{text: "yo"}`. -/
def yoMessage : Option JsObj := some [("text", JsVal.str "yo")]

/-- The sender record `{id: "a", name: "Alice", role: "host"}`. -/
def aliceSender : Option JsObj :=
  some [("id", JsVal.str "a"), ("name", JsVal.str "Alice"), ("role", JsVal.str "host")]

/-- Connection `a` joins `r1` and sends two messages within the same millisecond. -/
def twoSendsSameClock : List (Nat × Event) :=
  [(0, Event.joinRoom "a" r1 alice), (5, Event.sendMessage "a" r1 hiMessage aliceSender 0),
   (5, Event.sendMessage "a" r1 yoMessage aliceSender 0)]

/-- A profile that carries an `id` property of its own. -/
def profileWithId : JsObj := [("id", JsVal.str "u-17"), ("name", JsVal.str "Alice")]

/-- What a step by event `e` leading to state `s1` does to a room that was stored under
`r` as `room`: `joinRoom` and `disconnect` keep the room stored with the same log,
`sendMessage` keeps it stored with the log extended by at most one message, and a timer
step keeps the room as it is or removes it, the latter only when the timer is for `r`
and the room has no member. -/
def LogAfterStep (r : JsVal) (room : Room) (e : Event) (s1 : ServerState) : Prop :=
  match e with
  | Event.joinRoom _ _ _ =>
    ∃ room1, JsMap.get s1.rooms r = some room1 ∧ room1.messages = room.messages
  | Event.disconnect _ =>
    ∃ room1, JsMap.get s1.rooms r = some room1 ∧ room1.messages = room.messages
  | Event.sendMessage _ _ _ _ _ =>
    ∃ room1 added, JsMap.get s1.rooms r = some room1 ∧
      room1.messages = room.messages ++ added ∧ added.length ≤ 1
  | Event.timeout t =>
    JsMap.get s1.rooms r = some room ∨
      (JsMap.get s1.rooms r = none ∧ t.roomId = r ∧ JsMap.size room.users = 0)

/-- Connections `a` and `b` stay in `r1`, while connection `z` joins `r1` and then `r2`. -/
def rogueRun : List (Nat × Event) :=
  [(0, Event.joinRoom "a" r1 alice), (1, Event.joinRoom "z" r1 bob),
   (2, Event.joinRoom "z" r2 bob), (3, Event.joinRoom "b" r1 bob)]

/-- The state reached by `rogueRun`. -/
def rogueState : ServerState := (run init rogueRun).getD init

/-- Connection `a` joins `r1`, then `r2`; `b` joins `r1`; `a` closes. -/
def ghostRun : List (Nat × Event) :=
  [(0, Event.joinRoom "a" r1 alice), (5, Event.joinRoom "a" r2 alice),
   (6, Event.joinRoom "b" r1 bob), (9, Event.disconnect "a")]

/-- The state reached by `ghostRun`: `r1` still lists `a` besides `b`. -/
def ghostState : ServerState := (run init ghostRun).getD init

/-- Connection `sid` does not close along the run: no event of it is its `disconnect`. -/
def neverCloses (sid : String) (tr : List (Nat × Event)) : Bool :=
  tr.all (fun x => decide (x.2 ≠ Event.disconnect sid))

/-- Connection `sid` is registered, and subscribed to the broadcast group of every stored
room it is a member of. -/
def MemberLive (sid : String) (s : ServerState) : Prop :=
  ∀ r room, JsMap.get s.rooms r = some room → JsMap.has room.users sid = true →
    JsMap.has s.users sid = true ∧ (sid, r) ∈ s.subs

/-- Connection `a` joins `r1`, then `r2`, and stays connected; `b` joins `r1`. -/
def twoRoomsOpenRun : List (Nat × Event) :=
  [(0, Event.joinRoom "a" r1 alice), (5, Event.joinRoom "a" r2 alice),
   (6, Event.joinRoom "b" r1 bob)]

/-- The state reached by `twoRoomsOpenRun`. -/
def twoRoomsOpenState : ServerState := (run init twoRoomsOpenRun).getD init

/-! ## Facts about maps -/

namespace JsMap

variable {κ α : Type} [DecidableEq κ]

theorem get_set_self (m : JsMap κ α) (k : κ) (v : α) : get (set m k v) k = some v := by
  induction m with
  | nil => simp [set, get]
  | cons e m ih =>
    obtain ⟨k', v'⟩ := e
    by_cases h : k' = k
    · simp [set, get, h]
    · simp [set, get, h, ih]

theorem get_set_ne (m : JsMap κ α) {k k' : κ} (v : α) (h : k' ≠ k) :
    get (set m k v) k' = get m k' := by
  induction m with
  | nil => simp [set, get, h.symm]
  | cons e m ih =>
    obtain ⟨k₀, v₀⟩ := e
    by_cases h₀ : k₀ = k
    · subst h₀
      simp [set, get, h.symm]
    · simp only [set, h₀, if_false, get, ih]

theorem delete_cons (k₀ : κ) (v₀ : α) (m : JsMap κ α) (k : κ) :
    delete ((k₀, v₀) :: m) k = if k₀ = k then delete m k else (k₀, v₀) :: delete m k := by
  by_cases h₀ : k₀ = k <;> simp [delete, List.filter, h₀]

theorem get_delete_self (m : JsMap κ α) (k : κ) : get (delete m k) k = none := by
  induction m with
  | nil => simp [delete, get]
  | cons e m ih =>
    obtain ⟨k₀, v₀⟩ := e
    by_cases h₀ : k₀ = k
    · simp [delete_cons, h₀, ih]
    · simp [delete_cons, h₀, get, ih]

theorem get_delete_ne (m : JsMap κ α) {k k' : κ} (h : k' ≠ k) :
    get (delete m k) k' = get m k' := by
  induction m with
  | nil => simp [delete, get]
  | cons e m ih =>
    obtain ⟨k₀, v₀⟩ := e
    by_cases h₀ : k₀ = k
    · subst h₀
      simp [delete_cons, get, h.symm, ih]
    · by_cases h₁ : k₀ = k'
      · subst h₁
        simp [delete_cons, h, get]
      · simp [delete_cons, h₀, get, h₁, ih]

theorem size_set_of_get (m : JsMap κ α) (k : κ) (v w : α) (h : get m k = some w) :
    size (set m k v) = size m := by
  induction m with
  | nil => simp [get] at h
  | cons e m ih =>
    obtain ⟨k₀, v₀⟩ := e
    by_cases h₀ : k₀ = k
    · simp [set, h₀, size]
    · simp only [get, h₀, if_false] at h
      have := ih h
      simp only [size] at this
      simp [set, h₀, size, this]

theorem size_pos_of_get (m : JsMap κ α) (k : κ) (w : α) (h : get m k = some w) :
    0 < size m := by
  cases m with
  | nil => simp [get] at h
  | cons e m => simp [size]

theorem size_set_pos (m : JsMap κ α) (k : κ) (v : α) : 0 < size (set m k v) :=
  size_pos_of_get _ k v (get_set_self m k v)

theorem get_of_mem_keys (m : JsMap κ α) (k : κ) (h : k ∈ keys m) : ∃ v, get m k = some v := by
  induction m with
  | nil => simp [keys] at h
  | cons e m ih =>
    obtain ⟨k₀, v₀⟩ := e
    by_cases h₀ : k₀ = k
    · exact ⟨v₀, by simp [get, h₀]⟩
    · have : k ∈ keys m := by
        simp only [keys, List.map_cons, List.mem_cons] at h
        rcases h with h | h
        · exact absurd h.symm h₀
        · exact h
      obtain ⟨v, hv⟩ := ih this
      exact ⟨v, by simp [get, h₀, hv]⟩

theorem mem_keys_of_get (m : JsMap κ α) (k : κ) (v : α) (h : get m k = some v) : k ∈ keys m := by
  induction m with
  | nil => simp [get] at h
  | cons e m ih =>
    obtain ⟨k₀, v₀⟩ := e
    by_cases h₀ : k₀ = k
    · simp [keys, h₀]
    · simp only [get, h₀, if_false] at h
      have := ih h
      simp only [keys] at this
      simp [keys, this]

theorem get_of_mem (m : JsMap κ α) (hn : (keys m).Nodup) (k : κ) (v : α) (h : (k, v) ∈ m) :
    get m k = some v := by
  induction m with
  | nil => simp at h
  | cons e m ih =>
    obtain ⟨k₀, v₀⟩ := e
    simp only [keys, List.map_cons, List.nodup_cons] at hn
    simp only [List.mem_cons, Prod.mk.injEq] at h
    rcases h with ⟨hk, hv⟩ | h
    · simp [get, hk, hv]
    · have hk : k ∈ keys m := List.mem_map_of_mem Prod.fst h
      have hne : k₀ ≠ k := fun hh => hn.1 (hh ▸ hk)
      simp only [get, hne, if_false]
      exact ih hn.2 h

theorem keys_set_of_get (m : JsMap κ α) (k : κ) (v w : α) (h : get m k = some w) :
    keys (set m k v) = keys m := by
  induction m with
  | nil => simp [get] at h
  | cons e m ih =>
    obtain ⟨k₀, v₀⟩ := e
    by_cases h₀ : k₀ = k
    · simp [set, h₀, keys]
    · simp only [get, h₀, if_false] at h
      have := ih h
      simp only [keys] at this
      simp [set, h₀, keys, this]

theorem set_of_get_none (m : JsMap κ α) (k : κ) (v : α) (h : get m k = none) :
    set m k v = m ++ [(k, v)] := by
  induction m with
  | nil => simp [set]
  | cons e m ih =>
    obtain ⟨k₀, v₀⟩ := e
    by_cases h₀ : k₀ = k
    · simp [get, h₀] at h
    · simp only [get, h₀, if_false] at h
      simp [set, h₀, ih h]

theorem nodup_keys_set (m : JsMap κ α) (k : κ) (v : α) (hn : (keys m).Nodup) :
    (keys (set m k v)).Nodup := by
  cases h : get m k with
  | some w => rw [keys_set_of_get m k v w h]; exact hn
  | none =>
    rw [set_of_get_none m k v h]
    simp only [keys, List.map_append, List.map_cons, List.map_nil]
    refine List.Nodup.append hn (by simp) ?_
    intro x hx hx'
    simp only [List.mem_singleton] at hx'
    subst hx'
    obtain ⟨w, hw⟩ := get_of_mem_keys m x hx
    rw [hw] at h
    exact Option.noConfusion h

theorem nodup_keys_delete (m : JsMap κ α) (k : κ) (hn : (keys m).Nodup) :
    (keys (delete m k)).Nodup := by
  unfold keys delete
  exact (List.Nodup.sublist (List.Sublist.map _ (List.filter_sublist _)) hn)

end JsMap

/-! ## The handlers as state updates -/

theorem prop_registryEntry_roomId (sid : String) (roomId : JsVal) (user : Option JsObj) :
    prop (registryEntry sid roomId user) "roomId" = roomId := by
  unfold prop registryEntry
  rw [JsMap.get_set_ne _ _ (by decide), JsMap.get_set_self]
  rfl

theorem get_ensureRoom_self (rooms : JsMap JsVal Room) (roomId : JsVal) :
    JsMap.get (ensureRoom rooms roomId) roomId
      = some ((JsMap.get rooms roomId).getD (newRoom roomId)) := by
  unfold ensureRoom
  cases h : JsMap.get rooms roomId with
  | none => simp [JsMap.has, h, JsMap.get_set_self]
  | some room => simp [JsMap.has, h]

theorem get_ensureRoom_ne (rooms : JsMap JsVal Room) {roomId r : JsVal} (h : r ≠ roomId) :
    JsMap.get (ensureRoom rooms roomId) r = JsMap.get rooms r := by
  unfold ensureRoom
  split
  · rfl
  · exact JsMap.get_set_ne _ _ h

theorem nodup_keys_ensureRoom (rooms : JsMap JsVal Room) (roomId : JsVal)
    (hn : (JsMap.keys rooms).Nodup) : (JsMap.keys (ensureRoom rooms roomId)).Nodup := by
  unfold ensureRoom
  split
  · exact hn
  · exact JsMap.nodup_keys_set _ _ _ hn

theorem joinRoom_state (now : Nat) (sid : String) (roomId : JsVal) (user : Option JsObj)
    (s : ServerState) :
    (joinRoom now sid roomId user s).1 =
      { s with
        subs := subscribe s.subs sid roomId
        rooms := JsMap.set (ensureRoom s.rooms roomId) roomId
                  (withMember now sid user (roomBefore s roomId))
        users := JsMap.set s.users sid (registryEntry sid roomId user) } := by
  unfold joinRoom
  simp only [get_ensureRoom_self]
  cases user <;> rfl

theorem joinRoom_rooms_self (now : Nat) (sid : String) (roomId : JsVal) (user : Option JsObj)
    (s : ServerState) :
    JsMap.get (joinRoom now sid roomId user s).1.rooms roomId
      = some (withMember now sid user (roomBefore s roomId)) := by
  rw [joinRoom_state]
  exact JsMap.get_set_self _ _ _

theorem joinRoom_rooms_ne (now : Nat) (sid : String) {roomId r : JsVal} (user : Option JsObj)
    (s : ServerState) (h : r ≠ roomId) :
    JsMap.get (joinRoom now sid roomId user s).1.rooms r = JsMap.get s.rooms r := by
  rw [joinRoom_state]
  show JsMap.get (JsMap.set _ _ _) r = _
  rw [JsMap.get_set_ne _ _ h, get_ensureRoom_ne _ h]

theorem sendMessage_state (now stamp : Nat) (sid : String) (roomId : JsVal) (message user : Option JsObj)
    (s : ServerState) :
    (sendMessage now stamp sid roomId message user s).1 = s ∨
    ∃ room msg, JsMap.get s.rooms roomId = some room ∧
      (sendMessage now stamp sid roomId message user s).1 =
        { s with rooms := JsMap.set s.rooms roomId
                  { room with messages := room.messages ++ [msg] } } := by
  unfold sendMessage
  cases h : JsMap.get s.rooms roomId with
  | none => exact Or.inl rfl
  | some room =>
    cases message with
    | none => exact Or.inl rfl
    | some m =>
      cases user with
      | none => exact Or.inl rfl
      | some u => exact Or.inr ⟨room, _, rfl, rfl⟩

theorem disconnect_state (now : Nat) (sid : String) (s : ServerState) :
    (JsMap.get s.users sid = none ∧ disconnect now sid s = (s, [])) ∨
    (∃ e, JsMap.get s.users sid = some e ∧ JsMap.get s.rooms (prop e "roomId") = none ∧
      disconnect now sid s = ({ s with users := JsMap.delete s.users sid }, [])) ∨
    (∃ e room, JsMap.get s.users sid = some e ∧
      JsMap.get s.rooms (prop e "roomId") = some room ∧
      (disconnect now sid s).1 =
        { s with
          rooms := JsMap.set s.rooms (prop e "roomId")
                    { room with users := JsMap.delete room.users sid }
          timers := if JsMap.size (JsMap.delete room.users sid) > 0 then s.timers
                    else s.timers ++ [{ roomId := prop e "roomId", setAt := now, delay := 60000 }]
          users := JsMap.delete s.users sid }) := by
  unfold disconnect
  cases h : JsMap.get s.users sid with
  | none => exact Or.inl ⟨rfl, rfl⟩
  | some e =>
    cases h2 : JsMap.get s.rooms (prop e "roomId") with
    | none => exact Or.inr (Or.inl ⟨e, rfl, h2, by simp [h2]⟩)
    | some room =>
      refine Or.inr (Or.inr ⟨e, room, rfl, h2, ?_⟩)
      simp only [h2]
      split <;> rfl

theorem JsMap.get_delete_some {κ α : Type} [DecidableEq κ] (m : JsMap κ α) (k k' : κ) (v : α)
    (h : JsMap.get (JsMap.delete m k) k' = some v) : k' ≠ k ∧ JsMap.get m k' = some v := by
  by_cases hk : k' = k
  · subst hk
    rw [JsMap.get_delete_self] at h
    exact Option.noConfusion h
  · exact ⟨hk, by rwa [JsMap.get_delete_ne _ hk] at h⟩

theorem evictionCallback_get (roomId : JsVal) (s : ServerState) (r : JsVal) (room : Room)
    (h : JsMap.get (evictionCallback roomId s).rooms r = some room) :
    JsMap.get s.rooms r = some room ∧ (r = roomId → JsMap.size room.users ≠ 0) := by
  unfold evictionCallback at h
  cases h0 : JsMap.get s.rooms roomId with
  | none =>
    simp only [h0] at h
    refine ⟨h, ?_⟩
    intro hr
    subst hr
    rw [h0] at h
    exact Option.noConfusion h
  | some room0 =>
    simp only [h0] at h
    by_cases hz : JsMap.size room0.users = 0
    · simp only [hz, if_true] at h
      obtain ⟨hne, hg⟩ := JsMap.get_delete_some _ _ _ _ h
      exact ⟨hg, fun hr => absurd hr hne⟩
    · simp only [hz, if_false] at h
      refine ⟨h, ?_⟩
      intro hr
      subst hr
      rw [h0] at h
      cases h
      exact hz

theorem evictionCallback_users (roomId : JsVal) (s : ServerState) :
    (evictionCallback roomId s).users = s.users := by
  unfold evictionCallback
  split
  · split <;> rfl
  · rfl

theorem evictionCallback_timers (roomId : JsVal) (s : ServerState) :
    (evictionCallback roomId s).timers = s.timers := by
  unfold evictionCallback
  split
  · split <;> rfl
  · rfl

theorem step_cases {s s1 : ServerState} {now : Nat} {e : Event} {out : List Emit}
    (h : step s now e = some (s1, out)) (motive : Event → ServerState → Prop)
    (hj : ∀ sid r u, motive (Event.joinRoom sid r u) (joinRoom now sid r u { s with clock := now }).1)
    (hs : ∀ sid r m u lag, motive (Event.sendMessage sid r m u lag)
      (sendMessage now (now + lag) sid r m u { s with clock := now + lag }).1)
    (hd : ∀ sid, motive (Event.disconnect sid) (disconnect now sid
      { s with clock := now, subs := s.subs.filter (fun p => decide (p.1 ≠ sid)) }).1)
    (ht : ∀ t, t ∈ s.timers → t.due ≤ now → motive (Event.timeout t)
      (evictionCallback t.roomId { s with clock := now, timers := s.timers.erase t })) :
    motive e s1 := by
  unfold step at h
  split at h
  · exact Option.noConfusion h
  · cases e with
    | joinRoom sid r u =>
      simp only [Option.some.injEq] at h
      have := congrArg Prod.fst h
      simp only at this
      rw [← this]
      exact hj sid r u
    | sendMessage sid r m u lag =>
      simp only [Option.some.injEq] at h
      have := congrArg Prod.fst h
      simp only at this
      rw [← this]
      exact hs sid r m u lag
    | disconnect sid =>
      simp only [Option.some.injEq] at h
      have := congrArg Prod.fst h
      simp only at this
      rw [← this]
      exact hd sid
    | timeout t =>
      simp only at h
      split at h
      · rename_i hc
        simp only [Option.some.injEq, Prod.mk.injEq] at h
        rw [← h.1]
        exact ht t hc.1 hc.2
      · exact Option.noConfusion h

/-! ## More facts about maps -/

theorem JsMap.get_set_cases {κ α : Type} [DecidableEq κ] (m : JsMap κ α) (k k' : κ) (v w : α)
    (h : JsMap.get (JsMap.set m k v) k' = some w) :
    (k' = k ∧ w = v) ∨ (k' ≠ k ∧ JsMap.get m k' = some w) := by
  by_cases hk : k' = k
  · subst hk
    rw [JsMap.get_set_self] at h
    cases h
    exact Or.inl ⟨rfl, rfl⟩
  · rw [JsMap.get_set_ne _ _ hk] at h
    exact Or.inr ⟨hk, h⟩

theorem JsMap.has_set_self {κ α : Type} [DecidableEq κ] (m : JsMap κ α) (k : κ) (v : α) :
    JsMap.has (JsMap.set m k v) k = true := by
  simp [JsMap.has, JsMap.get_set_self]

theorem JsMap.has_set_ne {κ α : Type} [DecidableEq κ] (m : JsMap κ α) {k k' : κ} (v : α)
    (h : k' ≠ k) : JsMap.has (JsMap.set m k v) k' = JsMap.has m k' := by
  simp [JsMap.has, JsMap.get_set_ne _ _ h]

theorem JsMap.has_delete_self {κ α : Type} [DecidableEq κ] (m : JsMap κ α) (k : κ) :
    JsMap.has (JsMap.delete m k) k = false := by
  simp [JsMap.has, JsMap.get_delete_self]

theorem JsMap.has_delete_ne {κ α : Type} [DecidableEq κ] (m : JsMap κ α) {k k' : κ}
    (h : k' ≠ k) : JsMap.has (JsMap.delete m k) k' = JsMap.has m k' := by
  simp [JsMap.has, JsMap.get_delete_ne _ h]

theorem JsMap.size_pos_of_has {κ α : Type} [DecidableEq κ] (m : JsMap κ α) (k : κ)
    (h : JsMap.has m k = true) : 0 < JsMap.size m := by
  unfold JsMap.has at h
  cases hg : JsMap.get m k with
  | none => simp [hg] at h
  | some w => exact JsMap.size_pos_of_get m k w hg

/-! ### Room keys stay distinct -/

theorem keysNodup_joinRoom (now : Nat) (sid : String) (r : JsVal) (u : Option JsObj)
    (s : ServerState) (h : KeysNodup s) : KeysNodup (joinRoom now sid r u s).1 := by
  unfold KeysNodup
  rw [joinRoom_state]
  exact JsMap.nodup_keys_set _ _ _ (nodup_keys_ensureRoom _ _ h)

theorem keysNodup_sendMessage (now stamp : Nat) (sid : String) (r : JsVal) (m u : Option JsObj)
    (s : ServerState) (h : KeysNodup s) : KeysNodup (sendMessage now stamp sid r m u s).1 := by
  rcases sendMessage_state now stamp sid r m u s with h1 | ⟨room, msg, _, h1⟩
  · rw [h1]; exact h
  · rw [h1]; exact JsMap.nodup_keys_set _ _ _ h

theorem keysNodup_disconnect (now : Nat) (sid : String) (s : ServerState) (h : KeysNodup s) :
    KeysNodup (disconnect now sid s).1 := by
  rcases disconnect_state now sid s with ⟨_, h1⟩ | ⟨e, _, _, h1⟩ | ⟨e, room, _, _, h1⟩
  · rw [h1]; exact h
  · rw [h1]; exact h
  · rw [h1]; exact JsMap.nodup_keys_set _ _ _ h

theorem keysNodup_evictionCallback (r : JsVal) (s : ServerState) (h : KeysNodup s) :
    KeysNodup (evictionCallback r s) := by
  unfold evictionCallback
  split
  · split
    · exact JsMap.nodup_keys_delete _ _ h
    · exact h
  · exact h

theorem keysNodup_step {s s1 : ServerState} {now : Nat} {e : Event} {out : List Emit}
    (h : step s now e = some (s1, out)) (hi : KeysNodup s) : KeysNodup s1 :=
  step_cases h (fun _ x => KeysNodup x)
    (fun sid r u => keysNodup_joinRoom now sid r u _ hi)
    (fun sid r m u lag => keysNodup_sendMessage now (now + lag) sid r m u _ hi)
    (fun sid => keysNodup_disconnect now sid _ hi)
    (fun t _ _ => keysNodup_evictionCallback t.roomId _ hi)

/-! ### The `id` of a stored room is its key -/

theorem roomBefore_id (s : ServerState) (r : JsVal) (h : RoomIdsMatch s) :
    (roomBefore s r).id = r := by
  unfold roomBefore
  cases h0 : JsMap.get s.rooms r with
  | none => rfl
  | some room => exact h r room h0

theorem roomIdsMatch_joinRoom (now : Nat) (sid : String) (r : JsVal) (u : Option JsObj)
    (s : ServerState) (h : RoomIdsMatch s) : RoomIdsMatch (joinRoom now sid r u s).1 := by
  intro r1 room hg
  by_cases hr : r1 = r
  · subst hr
    rw [joinRoom_rooms_self] at hg
    cases hg
    exact roomBefore_id s r1 h
  · rw [joinRoom_rooms_ne now sid u s hr] at hg
    exact h r1 room hg

theorem roomIdsMatch_sendMessage (now stamp : Nat) (sid : String) (r : JsVal) (m u : Option JsObj)
    (s : ServerState) (h : RoomIdsMatch s) : RoomIdsMatch (sendMessage now stamp sid r m u s).1 := by
  rcases sendMessage_state now stamp sid r m u s with h1 | ⟨room, msg, hg0, h1⟩
  · rw [h1]; exact h
  · rw [h1]
    intro r1 room1 hg
    rcases JsMap.get_set_cases _ _ _ _ _ hg with ⟨hk, hw⟩ | ⟨_, hg1⟩
    · subst hk; subst hw
      exact h r1 room hg0
    · exact h r1 room1 hg1

theorem roomIdsMatch_disconnect (now : Nat) (sid : String) (s : ServerState)
    (h : RoomIdsMatch s) : RoomIdsMatch (disconnect now sid s).1 := by
  rcases disconnect_state now sid s with ⟨_, h1⟩ | ⟨e, _, _, h1⟩ | ⟨e, room, _, hg0, h1⟩
  · rw [h1]; exact h
  · rw [h1]; exact h
  · rw [h1]
    intro r1 room1 hg
    rcases JsMap.get_set_cases _ _ _ _ _ hg with ⟨hk, hw⟩ | ⟨_, hg1⟩
    · subst hk; subst hw
      exact h _ room hg0
    · exact h r1 room1 hg1

theorem roomIdsMatch_evictionCallback (r : JsVal) (s : ServerState) (h : RoomIdsMatch s) :
    RoomIdsMatch (evictionCallback r s) := by
  intro r1 room hg
  exact h r1 room (evictionCallback_get r s r1 room hg).1

theorem roomIdsMatch_step {s s1 : ServerState} {now : Nat} {e : Event} {out : List Emit}
    (h : step s now e = some (s1, out)) (hi : RoomIdsMatch s) : RoomIdsMatch s1 :=
  step_cases h (fun _ x => RoomIdsMatch x)
    (fun sid r u => roomIdsMatch_joinRoom now sid r u _ hi)
    (fun sid r m u lag => roomIdsMatch_sendMessage now (now + lag) sid r m u _ hi)
    (fun sid => roomIdsMatch_disconnect now sid _ hi)
    (fun t _ _ => roomIdsMatch_evictionCallback t.roomId _ hi)

/-! ### Further facts about `joinRoom` and the eviction callback -/

theorem roomBefore_of_get (s : ServerState) (r : JsVal) (room : Room)
    (h : JsMap.get s.rooms r = some room) : roomBefore s r = room := by
  simp [roomBefore, h]

theorem joinRoom_users (now : Nat) (sid : String) (r : JsVal) (u : Option JsObj)
    (s : ServerState) :
    (joinRoom now sid r u s).1.users = JsMap.set s.users sid (registryEntry sid r u) := by
  rw [joinRoom_state]

theorem joinRoom_timers (now : Nat) (sid : String) (r : JsVal) (u : Option JsObj)
    (s : ServerState) : (joinRoom now sid r u s).1.timers = s.timers := by
  rw [joinRoom_state]

theorem evictionCallback_get_of (roomId : JsVal) (s : ServerState) (r : JsVal) (room : Room)
    (h : JsMap.get s.rooms r = some room) (hne : r = roomId → JsMap.size room.users ≠ 0) :
    JsMap.get (evictionCallback roomId s).rooms r = some room := by
  unfold evictionCallback
  cases h0 : JsMap.get s.rooms roomId with
  | none => exact h
  | some room0 =>
    by_cases hz : JsMap.size room0.users = 0
    · simp only [hz, if_true]
      have hr : r ≠ roomId := by
        intro hr
        subst hr
        rw [h0] at h
        cases h
        exact hne rfl hz
      show JsMap.get (JsMap.delete s.rooms roomId) r = some room
      rw [JsMap.get_delete_ne _ hr]
      exact h
    · simp only [hz, if_false]
      exact h

/-! ### A registry entry names a stored room that has the connection as a member -/

theorem registrySound_joinRoom (now : Nat) (sid : String) (r : JsVal) (u : Option JsObj)
    (s : ServerState) (h : RegistrySound s) : RegistrySound (joinRoom now sid r u s).1 := by
  intro c e hg
  rw [joinRoom_users] at hg
  rcases JsMap.get_set_cases _ _ _ _ _ hg with ⟨hc, he⟩ | ⟨hc, hg1⟩
  · subst hc; subst he
    rw [prop_registryEntry_roomId]
    exact ⟨_, joinRoom_rooms_self now c r u s, JsMap.has_set_self _ _ _⟩
  · obtain ⟨room0, hr0, hm0⟩ := h c e hg1
    by_cases hr : prop e "roomId" = r
    · rw [hr] at hr0 ⊢
      refine ⟨_, joinRoom_rooms_self now sid r u s, ?_⟩
      rw [roomBefore_of_get s r room0 hr0]
      show JsMap.has (JsMap.set room0.users sid _) c = true
      rw [JsMap.has_set_ne _ _ hc]
      exact hm0
    · exact ⟨room0, by rw [joinRoom_rooms_ne now sid u s hr]; exact hr0, hm0⟩

theorem registrySound_sendMessage (now stamp : Nat) (sid : String) (r : JsVal) (m u : Option JsObj)
    (s : ServerState) (h : RegistrySound s) : RegistrySound (sendMessage now stamp sid r m u s).1 := by
  rcases sendMessage_state now stamp sid r m u s with h1 | ⟨room, msg, hg0, h1⟩
  · rw [h1]; exact h
  · rw [h1]
    intro c e hg
    obtain ⟨room0, hr0, hm0⟩ := h c e hg
    by_cases hr : prop e "roomId" = r
    · rw [hr] at hr0 ⊢
      rw [hg0] at hr0
      cases hr0
      exact ⟨_, JsMap.get_set_self _ _ _, hm0⟩
    · exact ⟨room0, by
        show JsMap.get (JsMap.set _ _ _) _ = _
        rw [JsMap.get_set_ne _ _ hr]; exact hr0, hm0⟩

theorem registrySound_disconnect (now : Nat) (sid : String) (s : ServerState)
    (h : RegistrySound s) : RegistrySound (disconnect now sid s).1 := by
  rcases disconnect_state now sid s with ⟨_, h1⟩ | ⟨e0, _, _, h1⟩ | ⟨e0, room, _, hg0, h1⟩
  · rw [h1]; exact h
  · rw [h1]
    intro c e hg
    obtain ⟨_, hg1⟩ := JsMap.get_delete_some _ _ _ _ hg
    exact h c e hg1
  · rw [h1]
    intro c e hg
    obtain ⟨hc, hg1⟩ := JsMap.get_delete_some _ _ _ _ hg
    obtain ⟨room0, hr0, hm0⟩ := h c e hg1
    by_cases hr : prop e "roomId" = prop e0 "roomId"
    · rw [hr] at hr0 ⊢
      rw [hg0] at hr0
      cases hr0
      refine ⟨_, JsMap.get_set_self _ _ _, ?_⟩
      show JsMap.has (JsMap.delete _ sid) c = true
      rw [JsMap.has_delete_ne _ hc]
      exact hm0
    · exact ⟨room0, by
        show JsMap.get (JsMap.set _ _ _) _ = _
        rw [JsMap.get_set_ne _ _ hr]; exact hr0, hm0⟩

theorem registrySound_evictionCallback (r : JsVal) (s : ServerState) (h : RegistrySound s) :
    RegistrySound (evictionCallback r s) := by
  intro c e hg
  rw [evictionCallback_users] at hg
  obtain ⟨room0, hr0, hm0⟩ := h c e hg
  refine ⟨room0, evictionCallback_get_of r s _ room0 hr0 ?_, hm0⟩
  intro _
  exact Nat.pos_iff_ne_zero.mp (JsMap.size_pos_of_has _ c hm0)

theorem registrySound_step {s s1 : ServerState} {now : Nat} {e : Event} {out : List Emit}
    (h : step s now e = some (s1, out)) (hi : RegistrySound s) : RegistrySound s1 :=
  step_cases h (fun _ x => RegistrySound x)
    (fun sid r u => registrySound_joinRoom now sid r u _ hi)
    (fun sid r m u lag => registrySound_sendMessage now (now + lag) sid r m u _ hi)
    (fun sid => registrySound_disconnect now sid _ hi)
    (fun t _ _ => registrySound_evictionCallback t.roomId _ hi)

/-! ### An empty stored room has a pending eviction timer -/

theorem emptyRoomsTimed_joinRoom (now : Nat) (sid : String) (r : JsVal) (u : Option JsObj)
    (s : ServerState) (h : EmptyRoomsTimed s) : EmptyRoomsTimed (joinRoom now sid r u s).1 := by
  intro r1 room hg hz
  rw [joinRoom_timers]
  by_cases hr : r1 = r
  · subst hr
    rw [joinRoom_rooms_self] at hg
    cases hg
    have := JsMap.size_set_pos (roomBefore s r1).users sid (memberRecord sid u now)
    exact absurd hz (Nat.pos_iff_ne_zero.mp this)
  · rw [joinRoom_rooms_ne now sid u s hr] at hg
    exact h r1 room hg hz

theorem emptyRoomsTimed_sendMessage (now stamp : Nat) (sid : String) (r : JsVal) (m u : Option JsObj)
    (s : ServerState) (h : EmptyRoomsTimed s) :
    EmptyRoomsTimed (sendMessage now stamp sid r m u s).1 := by
  rcases sendMessage_state now stamp sid r m u s with h1 | ⟨room, msg, hg0, h1⟩
  · rw [h1]; exact h
  · rw [h1]
    intro r1 room1 hg hz
    rcases JsMap.get_set_cases _ _ _ _ _ hg with ⟨hk, hw⟩ | ⟨_, hg1⟩
    · subst hk; subst hw
      exact h r1 room hg0 hz
    · exact h r1 room1 hg1 hz

theorem emptyRoomsTimed_disconnect (now : Nat) (sid : String) (s : ServerState)
    (h : EmptyRoomsTimed s) : EmptyRoomsTimed (disconnect now sid s).1 := by
  rcases disconnect_state now sid s with ⟨_, h1⟩ | ⟨e0, _, _, h1⟩ | ⟨e0, room, _, hg0, h1⟩
  · rw [h1]; exact h
  · rw [h1]; exact h
  · rw [h1]
    intro r1 room1 hg hz
    rcases JsMap.get_set_cases _ _ _ _ _ hg with ⟨hk, hw⟩ | ⟨_, hg1⟩
    · subst hk; subst hw
      have hz1 : ¬ JsMap.size (JsMap.delete room.users sid) > 0 := by
        have : JsMap.size (JsMap.delete room.users sid) = 0 := hz
        omega
      refine ⟨{ roomId := prop e0 "roomId", setAt := now, delay := 60000 }, ?_, rfl⟩
      show _ ∈ (if _ then _ else _)
      rw [if_neg hz1]
      simp
    · obtain ⟨t, ht, htr⟩ := h r1 room1 hg1 hz
      refine ⟨t, ?_, htr⟩
      show _ ∈ (if _ then _ else _)
      split
      · exact ht
      · exact List.mem_append_left _ ht

theorem emptyRoomsTimed_timeout (now : Nat) (t : Timer) (s : ServerState)
    (h : EmptyRoomsTimed s) :
    EmptyRoomsTimed
      (evictionCallback t.roomId { s with clock := now, timers := s.timers.erase t }) := by
  intro r1 room hg hz
  obtain ⟨hg1, hne⟩ := evictionCallback_get _ _ _ _ hg
  obtain ⟨t1, ht1, htr⟩ := h r1 room hg1 hz
  have hd : t1 ≠ t := by
    intro hh
    subst hh
    exact hne htr.symm hz
  rw [evictionCallback_timers]
  exact ⟨t1, (List.mem_erase_of_ne hd).mpr ht1, htr⟩

theorem emptyRoomsTimed_step {s s1 : ServerState} {now : Nat} {e : Event} {out : List Emit}
    (h : step s now e = some (s1, out)) (hi : EmptyRoomsTimed s) : EmptyRoomsTimed s1 :=
  step_cases h (fun _ x => EmptyRoomsTimed x)
    (fun sid r u => emptyRoomsTimed_joinRoom now sid r u _ hi)
    (fun sid r m u lag => emptyRoomsTimed_sendMessage now (now + lag) sid r m u _ hi)
    (fun sid => emptyRoomsTimed_disconnect now sid _ hi)
    (fun t _ _ => emptyRoomsTimed_timeout now t s hi)

/-! ### A member is registered in its room, as long as it does not join a second room -/

theorem memberRegistered_joinRoom (c : String) (now : Nat) (sid : String) (r : JsVal)
    (u : Option JsObj) (s : ServerState)
    (hguard : sid = c → ∀ e, JsMap.get s.users c = some e → prop e "roomId" = r)
    (h : MemberRegistered c s) : MemberRegistered c (joinRoom now sid r u s).1 := by
  intro r1 room hg hh
  rw [joinRoom_users]
  by_cases hc : c = sid
  · subst hc
    by_cases hr : r1 = r
    · subst hr
      exact ⟨_, JsMap.get_set_self _ _ _, prop_registryEntry_roomId _ _ _⟩
    · rw [joinRoom_rooms_ne now c u s hr] at hg
      obtain ⟨e, he, hp⟩ := h r1 room hg hh
      exact absurd (hp.symm.trans (hguard rfl e he)) hr
  · rw [JsMap.get_set_ne _ _ hc]
    by_cases hr : r1 = r
    · subst hr
      rw [joinRoom_rooms_self] at hg
      cases hg
      have hh1 : JsMap.has (roomBefore s r1).users c = true := by
        have : JsMap.has (JsMap.set (roomBefore s r1).users sid (memberRecord sid u now)) c
            = true := hh
        rwa [JsMap.has_set_ne _ _ hc] at this
      cases h0 : JsMap.get s.rooms r1 with
      | none =>
        simp [roomBefore, h0, newRoom, JsMap.has, JsMap.get] at hh1
      | some room0 =>
        rw [roomBefore_of_get s r1 room0 h0] at hh1
        exact h r1 room0 h0 hh1
    · rw [joinRoom_rooms_ne now sid u s hr] at hg
      exact h r1 room hg hh

theorem memberRegistered_sendMessage (c : String) (now stamp : Nat) (sid : String) (r : JsVal)
    (m u : Option JsObj) (s : ServerState) (h : MemberRegistered c s) :
    MemberRegistered c (sendMessage now stamp sid r m u s).1 := by
  rcases sendMessage_state now stamp sid r m u s with h1 | ⟨room, msg, hg0, h1⟩
  · rw [h1]; exact h
  · rw [h1]
    intro r1 room1 hg hh
    rcases JsMap.get_set_cases _ _ _ _ _ hg with ⟨hk, hw⟩ | ⟨_, hg1⟩
    · subst hk; subst hw
      exact h r1 room hg0 hh
    · exact h r1 room1 hg1 hh

theorem memberRegistered_disconnect (c : String) (now : Nat) (sid : String) (s : ServerState)
    (h : MemberRegistered c s) : MemberRegistered c (disconnect now sid s).1 := by
  rcases disconnect_state now sid s with ⟨_, h1⟩ | ⟨e0, he0, hn0, h1⟩ | ⟨e0, room, he0, hg0, h1⟩
  · rw [h1]; exact h
  · rw [h1]
    intro r1 room1 hg hh
    obtain ⟨e, he, hp⟩ := h r1 room1 hg hh
    have hc : c ≠ sid := by
      intro hc
      subst hc
      rw [he0] at he
      cases he
      rw [hp] at hn0
      rw [hn0] at hg
      exact Option.noConfusion hg
    exact ⟨e, by show JsMap.get (JsMap.delete _ _) _ = _; rw [JsMap.get_delete_ne _ hc]; exact he,
      hp⟩
  · rw [h1]
    intro r1 room1 hg hh
    rcases JsMap.get_set_cases _ _ _ _ _ hg with ⟨hk, hw⟩ | ⟨hk, hg1⟩
    · subst hk; subst hw
      have hh1 : JsMap.has (JsMap.delete room.users sid) c = true := hh
      have hc : c ≠ sid := by
        intro hc
        subst hc
        rw [JsMap.has_delete_self] at hh1
        exact Bool.noConfusion hh1
      rw [JsMap.has_delete_ne _ hc] at hh1
      obtain ⟨e, he, hp⟩ := h _ room hg0 hh1
      exact ⟨e, by
        show JsMap.get (JsMap.delete _ _) _ = _
        rw [JsMap.get_delete_ne _ hc]; exact he, hp⟩
    · obtain ⟨e, he, hp⟩ := h r1 room1 hg1 hh
      have hc : c ≠ sid := by
        intro hc
        subst hc
        rw [he0] at he
        cases he
        exact hk hp.symm
      exact ⟨e, by
        show JsMap.get (JsMap.delete _ _) _ = _
        rw [JsMap.get_delete_ne _ hc]; exact he, hp⟩

theorem memberRegistered_evictionCallback (c : String) (r : JsVal) (s : ServerState)
    (h : MemberRegistered c s) : MemberRegistered c (evictionCallback r s) := by
  intro r1 room hg hh
  rw [evictionCallback_users]
  exact h r1 room (evictionCallback_get r s r1 room hg).1 hh

theorem memberRegistered_step {c : String} {s s1 : ServerState} {now : Nat} {e : Event}
    {out : List Emit} (h : step s now e = some (s1, out))
    (hguard : joinsRegisteredRoom c s e = true) (hi : MemberRegistered c s) :
    MemberRegistered c s1 := by
  refine step_cases h (fun e x => joinsRegisteredRoom c s e = true → MemberRegistered c x)
    ?_ ?_ ?_ ?_ hguard
  · intro sid r u hgd
    refine memberRegistered_joinRoom c now sid r u _ ?_ hi
    intro hsid e he
    have he1 : JsMap.get s.users c = some e := he
    simpa [joinsRegisteredRoom, hsid, he1] using hgd
  · intro sid r m u lag _
    exact memberRegistered_sendMessage c now (now + lag) sid r m u _ hi
  · intro sid _
    exact memberRegistered_disconnect c now sid _ hi
  · intro t _ _ _
    exact memberRegistered_evictionCallback c t.roomId _ hi

/-! ### Invariants along a run -/

theorem run_preserves (P : ServerState → Prop)
    (hstep : ∀ s now e s1 out, step s now e = some (s1, out) → P s → P s1) :
    ∀ (tr : List (Nat × Event)) (s s1 : ServerState), run s tr = some s1 → P s → P s1 := by
  intro tr
  induction tr with
  | nil =>
    intro s s1 h hp
    simp only [run, Option.some.injEq] at h
    exact h ▸ hp
  | cons te rest ih =>
    intro s s1 h hp
    obtain ⟨now, e⟩ := te
    simp only [run] at h
    cases hs : step s now e with
    | none => simp [hs] at h
    | some p =>
      obtain ⟨s2, out⟩ := p
      simp only [hs] at h
      exact ih s2 s1 h (hstep s now e s2 out hs hp)

theorem run_memberRegistered (c : String) :
    ∀ (tr : List (Nat × Event)) (s s1 : ServerState), run s tr = some s1 →
      singleRoomRun c s tr = true → MemberRegistered c s → MemberRegistered c s1 := by
  intro tr
  induction tr with
  | nil =>
    intro s s1 h _ hp
    simp only [run, Option.some.injEq] at h
    exact h ▸ hp
  | cons te rest ih =>
    intro s s1 h hg hp
    obtain ⟨now, e⟩ := te
    simp only [run] at h
    simp only [singleRoomRun, Bool.and_eq_true] at hg
    cases hs : step s now e with
    | none => simp [hs] at h
    | some p =>
      obtain ⟨s2, out⟩ := p
      simp only [hs] at h hg
      exact ih s2 s1 h hg.2 (memberRegistered_step hs hg.1 hp)

theorem init_keysNodup : KeysNodup init := by simp [KeysNodup, init, JsMap.keys]

theorem init_roomIdsMatch : RoomIdsMatch init := by
  intro r room h
  simp [init, JsMap.get] at h

theorem init_registrySound : RegistrySound init := by
  intro c e h
  simp [init, JsMap.get] at h

theorem init_emptyRoomsTimed : EmptyRoomsTimed init := by
  intro r room h
  simp [init, JsMap.get] at h

theorem init_memberRegistered (c : String) : MemberRegistered c init := by
  intro r room h
  simp [init, JsMap.get] at h

/-! ### The rooms a connection is a member of -/

theorem JsMap.mem_of_get {κ α : Type} [DecidableEq κ] (m : JsMap κ α) (k : κ) (v : α)
    (h : JsMap.get m k = some v) : (k, v) ∈ m := by
  induction m with
  | nil => simp [JsMap.get] at h
  | cons e m ih =>
    obtain ⟨k₀, v₀⟩ := e
    by_cases h₀ : k₀ = k
    · simp only [JsMap.get, h₀, if_true, Option.some.injEq] at h
      simp [h₀, h]
    · simp only [JsMap.get, h₀, if_false] at h
      exact List.mem_cons_of_mem _ (ih h)

theorem length_le_one_of_all_eq {α : Type} (l : List α) (hn : l.Nodup)
    (h : ∀ x ∈ l, ∀ y ∈ l, x = y) : l.length ≤ 1 := by
  match l, hn, h with
  | [], _, _ => simp
  | [_], _, _ => simp
  | x :: y :: rest, hn, h =>
    have hxy : x = y := h x (by simp) y (by simp)
    subst hxy
    simp at hn

theorem memberRooms_nodup (s : ServerState) (sid : String) (h : KeysNodup s) :
    (memberRooms s sid).Nodup := by
  unfold memberRooms JsMap.keys
  exact List.Nodup.sublist (List.Sublist.map _ (List.filter_sublist _)) h

theorem mem_memberRooms (s : ServerState) (sid : String) (h : KeysNodup s) (r : JsVal) :
    r ∈ memberRooms s sid ↔
      ∃ room, JsMap.get s.rooms r = some room ∧ JsMap.has room.users sid = true := by
  unfold memberRooms JsMap.keys
  constructor
  · intro hr
    obtain ⟨⟨r0, room⟩, hmem, hr0⟩ := List.mem_map.mp hr
    simp only at hr0
    subst hr0
    obtain ⟨hin, hhas⟩ := List.mem_filter.mp hmem
    exact ⟨room, JsMap.get_of_mem _ h _ _ hin, hhas⟩
  · rintro ⟨room, hg, hhas⟩
    refine List.mem_map.mpr ⟨(r, room), List.mem_filter.mpr ⟨?_, hhas⟩, rfl⟩
    exact JsMap.mem_of_get _ _ _ hg

/-! ### A room without members stays so until somebody joins it -/

theorem JsMap.size_delete_le {κ α : Type} [DecidableEq κ] (m : JsMap κ α) (k : κ) :
    JsMap.size (JsMap.delete m k) ≤ JsMap.size m :=
  List.length_filter_le _ _

theorem emptyOrAbsent_sendMessage (r0 : JsVal) (now stamp : Nat) (sid : String) (r : JsVal)
    (m u : Option JsObj) (s : ServerState) (h : EmptyOrAbsent r0 s) :
    EmptyOrAbsent r0 (sendMessage now stamp sid r m u s).1 := by
  rcases sendMessage_state now stamp sid r m u s with h1 | ⟨room, msg, hg0, h1⟩
  · rw [h1]; exact h
  · rw [h1]
    intro room1 hg
    rcases JsMap.get_set_cases _ _ _ _ _ hg with ⟨hk, hw⟩ | ⟨_, hg1⟩
    · subst hk; subst hw
      exact h room hg0
    · exact h room1 hg1

theorem emptyOrAbsent_disconnect (r0 : JsVal) (now : Nat) (sid : String) (s : ServerState)
    (h : EmptyOrAbsent r0 s) : EmptyOrAbsent r0 (disconnect now sid s).1 := by
  rcases disconnect_state now sid s with ⟨_, h1⟩ | ⟨e0, _, _, h1⟩ | ⟨e0, room, _, hg0, h1⟩
  · rw [h1]; exact h
  · rw [h1]; exact h
  · rw [h1]
    intro room1 hg
    rcases JsMap.get_set_cases _ _ _ _ _ hg with ⟨hk, hw⟩ | ⟨_, hg1⟩
    · subst hw
      rw [← hk] at hg0
      have h0 := h room hg0
      have hle := JsMap.size_delete_le room.users sid
      show JsMap.size (JsMap.delete room.users sid) = 0
      omega
    · exact h room1 hg1

theorem emptyOrAbsent_step {r0 : JsVal} {s s1 : ServerState} {now : Nat} {e : Event}
    {out : List Emit} (h : step s now e = some (s1, out)) (hj : isJoinOf r0 e = false)
    (hi : EmptyOrAbsent r0 s) : EmptyOrAbsent r0 s1 := by
  refine step_cases h (fun e x => isJoinOf r0 e = false → EmptyOrAbsent r0 x) ?_ ?_ ?_ ?_ hj
  · intro sid r u hne room hg
    have hr : r0 ≠ r := by
      intro hh
      simp [isJoinOf, hh] at hne
    rw [joinRoom_rooms_ne now sid u _ hr] at hg
    exact hi room hg
  · intro sid r m u lag _
    exact emptyOrAbsent_sendMessage r0 now (now + lag) sid r m u _ hi
  · intro sid _
    exact emptyOrAbsent_disconnect r0 now sid _ hi
  · intro t _ _ _ room hg
    exact hi room (evictionCallback_get _ _ _ _ hg).1

theorem emptyOrAbsent_run (r0 : JsVal) :
    ∀ (tr : List (Nat × Event)) (s s1 : ServerState), run s tr = some s1 →
      (∀ x ∈ tr, isJoinOf r0 x.2 = false) → EmptyOrAbsent r0 s → EmptyOrAbsent r0 s1 := by
  intro tr
  induction tr with
  | nil =>
    intro s s1 h _ hp
    simp only [run, Option.some.injEq] at h
    exact h ▸ hp
  | cons te rest ih =>
    intro s s1 h hj hp
    obtain ⟨now, e⟩ := te
    simp only [run] at h
    cases hs : step s now e with
    | none => simp [hs] at h
    | some p =>
      obtain ⟨s2, out⟩ := p
      simp only [hs] at h
      exact ih s2 s1 h (fun x hx => hj x (List.mem_cons_of_mem _ hx))
        (emptyOrAbsent_step hs (hj (now, e) (List.mem_cons_self _ _)) hp)

theorem evictionCallback_absent (r : JsVal) (s : ServerState) (h : EmptyOrAbsent r s) :
    JsMap.has (evictionCallback r s).rooms r = false := by
  unfold evictionCallback
  cases h0 : JsMap.get s.rooms r with
  | none => simp [JsMap.has, h0]
  | some room =>
    simp only [h room h0, if_true]
    exact JsMap.has_delete_self _ _

theorem timeout_step {s s1 : ServerState} {now : Nat} {t : Timer} {out : List Emit}
    (h : step s now (Event.timeout t) = some (s1, out)) :
    s1 = evictionCallback t.roomId { s with clock := now, timers := s.timers.erase t } ∧
      out = [] ∧ t ∈ s.timers ∧ t.due ≤ now := by
  unfold step at h
  split at h
  · exact Option.noConfusion h
  · simp only at h
    split at h
    · rename_i hc
      simp only [Option.some.injEq, Prod.mk.injEq] at h
      exact ⟨h.1.symm, h.2.symm, hc.1, hc.2⟩
    · exact Option.noConfusion h

theorem disconnect_step {s s1 : ServerState} {now : Nat} {sid : String} {out : List Emit}
    (h : step s now (Event.disconnect sid) = some (s1, out)) :
    (s1, out) = disconnect now sid
      { s with clock := now, subs := s.subs.filter (fun p => decide (p.1 ≠ sid)) } := by
  unfold step at h
  split at h
  · exact Option.noConfusion h
  · simp only [Option.some.injEq] at h
    exact h.symm

theorem disconnect_emptied_timer (now : Nat) (sid : String) (s : ServerState) (r : JsVal)
    (room0 room1 : Room) (h0 : JsMap.get s.rooms r = some room0)
    (hm : JsMap.has room0.users sid = true)
    (h1 : JsMap.get (disconnect now sid s).1.rooms r = some room1)
    (hz : JsMap.size room1.users = 0) :
    ({ roomId := r, setAt := now, delay := 60000 } : Timer) ∈ (disconnect now sid s).1.timers := by
  have hpos : 0 < JsMap.size room0.users := JsMap.size_pos_of_has _ sid hm
  rcases disconnect_state now sid s with ⟨_, h2⟩ | ⟨e0, _, _, h2⟩ | ⟨e0, room, _, hg0, h2⟩
  · rw [h2] at h1
    rw [h0] at h1
    cases h1
    omega
  · rw [h2] at h1
    have h3 : JsMap.get s.rooms r = some room1 := h1
    rw [h0] at h3
    cases h3
    omega
  · rw [h2] at h1 ⊢
    rcases JsMap.get_set_cases _ _ _ _ _ h1 with ⟨hk, hw⟩ | ⟨_, hg1⟩
    · subst hw
      have hz1 : ¬ JsMap.size (JsMap.delete room.users sid) > 0 := by
        have : JsMap.size (JsMap.delete room.users sid) = 0 := hz
        omega
      show _ ∈ (if _ then _ else _)
      rw [if_neg hz1, hk]
      simp
    · rw [h0] at hg1
      cases hg1
      omega

/-! ### What `joinRoom` emits and stores -/

theorem joinRoom_out (now : Nat) (sid : String) (r : JsVal) (u : Option JsObj)
    (s : ServerState) :
    (joinRoom now sid r u s).2 =
      [{ target := Target.roomExcept r sid,
         payload := Payload.userJoined (joinedUser sid u)
           (JsMap.values (withMember now sid u (roomBefore s r)).users) },
       { target := Target.socket sid,
         payload := Payload.roomData (roomSnapshot (withMember now sid u (roomBefore s r))) }]
      ++ (match u with
          | some _ => []
          | none => [{ target := Target.socket sid,
                       payload := Payload.error "Failed to join room" }]) := by
  unfold joinRoom
  simp only [get_ensureRoom_self]
  cases u <;> rfl

theorem sentRoomData_joinRoom (now : Nat) (sid : String) (r : JsVal) (u : Option JsObj)
    (s : ServerState) :
    sentRoomData (joinRoom now sid r u s).2 =
      [(Target.socket sid, roomSnapshot (withMember now sid u (roomBefore s r)))] := by
  rw [joinRoom_out]
  cases u <;> rfl

theorem slice_last_fifty {α : Type} (xs : List α) : slice xs (-50) = xs.drop (xs.length - 50) := by
  unfold slice
  have h : (max ((xs.length : Int) + -50) 0).toNat = xs.length - 50 := by omega
  simp [h]

theorem JsMap.set_set {κ α : Type} [DecidableEq κ] (m : JsMap κ α) (k : κ) (v w : α) :
    JsMap.set (JsMap.set m k v) k w = JsMap.set m k w := by
  induction m with
  | nil => simp [JsMap.set]
  | cons e m ih =>
    obtain ⟨k₀, v₀⟩ := e
    by_cases h₀ : k₀ = k
    · simp [JsMap.set, h₀]
    · simp [JsMap.set, h₀, ih]

theorem JsMap.set_append_new {κ α : Type} [DecidableEq κ] (m : JsMap κ α) (k : κ) (v w : α)
    (h : JsMap.get m k = none) : JsMap.set (m ++ [(k, v)]) k w = m ++ [(k, w)] := by
  rw [← JsMap.set_of_get_none m k v h, JsMap.set_set, JsMap.set_of_get_none m k w h]

theorem JsMap.get_none_of_not_mem_keys {κ α : Type} [DecidableEq κ] (m : JsMap κ α) (k : κ)
    (h : k ∉ JsMap.keys m) : JsMap.get m k = none := by
  cases hg : JsMap.get m k with
  | none => rfl
  | some v => exact absurd (JsMap.mem_keys_of_get m k v hg) h

theorem JsMap.mem_values_of_get {κ α : Type} [DecidableEq κ] (m : JsMap κ α) (k : κ) (v : α)
    (h : JsMap.get m k = some v) : v ∈ JsMap.values m :=
  List.mem_map.mpr ⟨(k, v), JsMap.mem_of_get m k v h, rfl⟩

theorem get_foldl_set (o : JsObj) (hn : (JsMap.keys o).Nodup) (k : String) :
    ∀ acc : JsObj, JsMap.get (o.foldl (fun acc e => JsMap.set acc e.1 e.2) acc) k =
      match JsMap.get o k with
      | some v => some v
      | none => JsMap.get acc k := by
  induction o with
  | nil => intro acc; rfl
  | cons e o ih =>
    intro acc
    obtain ⟨k₀, v₀⟩ := e
    simp only [JsMap.keys, List.map_cons, List.nodup_cons] at hn
    simp only [List.foldl_cons]
    rw [ih hn.2]
    by_cases h₀ : k₀ = k
    · subst h₀
      have hnone : JsMap.get o k₀ = none := JsMap.get_none_of_not_mem_keys o k₀ hn.1
      simp [hnone, JsMap.get, JsMap.get_set_self]
    · have hne : k ≠ k₀ := fun hh => h₀ hh.symm
      simp only [JsMap.get, h₀, if_false]
      cases JsMap.get o k with
      | some v => rfl
      | none => exact JsMap.get_set_ne _ _ hne

theorem prop_memberRecord_of_profile (sid : String) (p : JsObj) (now : Nat)
    (hn : (JsMap.keys p).Nodup) (k : String) (v : JsVal) (hk : JsMap.get p k = some v)
    (hj : k ≠ "joinedAt") : prop (memberRecord sid (some p) now) k = v := by
  unfold prop memberRecord spread
  rw [JsMap.get_set_ne _ _ hj, get_foldl_set p hn k, hk]
  rfl

theorem subscribe_idem (subs : List (String × JsVal)) (sid : String) (r : JsVal) :
    subscribe (subscribe subs sid r) sid r = subscribe subs sid r := by
  unfold subscribe
  by_cases h : (sid, r) ∈ subs
  · simp [h]
  · simp [h]

theorem ensureRoom_of_get (rooms : JsMap JsVal Room) (r : JsVal) (room : Room)
    (h : JsMap.get rooms r = some room) : ensureRoom rooms r = rooms := by
  simp [ensureRoom, JsMap.has, h]

theorem joinRoom_idem (now : Nat) (sid : String) (r : JsVal) (u : Option JsObj)
    (s : ServerState) :
    (joinRoom now sid r u (joinRoom now sid r u s).1).1 = (joinRoom now sid r u s).1 := by
  have hself := joinRoom_rooms_self now sid r u s
  rw [joinRoom_state now sid r u (joinRoom now sid r u s).1]
  rw [ensureRoom_of_get _ r _ hself, roomBefore_of_get _ r _ hself]
  rw [joinRoom_state now sid r u s]
  simp only [withMember, JsMap.set_set, subscribe_idem]

theorem joinRoom_step {s s1 : ServerState} {now : Nat} {sid : String} {r : JsVal}
    {u : Option JsObj} {out : List Emit}
    (h : step s now (Event.joinRoom sid r u) = some (s1, out)) :
    (s1, out) = joinRoom now sid r u { s with clock := now } := by
  unfold step at h
  split at h
  · exact Option.noConfusion h
  · simp only [Option.some.injEq] at h
    exact h.symm

theorem has_set_of_has {κ α : Type} [DecidableEq κ] (m : JsMap κ α) (k k1 : κ) (v : α)
    (h : JsMap.has m k1 = true) : JsMap.has (JsMap.set m k v) k1 = true := by
  by_cases hk : k1 = k
  · subst hk
    exact JsMap.has_set_self _ _ _
  · rw [JsMap.has_set_ne _ _ hk]
    exact h

theorem has_of_get {κ α : Type} [DecidableEq κ] (m : JsMap κ α) (k : κ) (v : α)
    (h : JsMap.get m k = some v) : JsMap.has m k = true := by
  simp [JsMap.has, h]

/-! ### No step removes a room that has a member -/

theorem step_keeps_inhabited_room {s s1 : ServerState} {now : Nat} {e : Event}
    {out : List Emit} (h : step s now e = some (s1, out)) (r : JsVal) (room : Room)
    (hg : JsMap.get s.rooms r = some room) (hpos : 0 < JsMap.size room.users) :
    JsMap.has s1.rooms r = true := by
  have hh : JsMap.has s.rooms r = true := has_of_get _ _ _ hg
  refine step_cases h (fun _ x => JsMap.has x.rooms r = true) ?_ ?_ ?_ ?_
  · intro sid r0 u
    by_cases hr : r = r0
    · subst hr
      exact has_of_get _ _ _ (joinRoom_rooms_self now sid r u _)
    · unfold JsMap.has
      rw [joinRoom_rooms_ne now sid u _ hr]
      exact hh
  · intro sid r0 m u lag
    rcases sendMessage_state now (now + lag) sid r0 m u { s with clock := now + lag }
      with h1 | ⟨_, _, _, h1⟩
    · rw [h1]; exact hh
    · rw [h1]; exact has_set_of_has _ _ _ _ hh
  · intro sid
    rcases disconnect_state now sid
      { s with clock := now, subs := s.subs.filter (fun p => decide (p.1 ≠ sid)) }
      with ⟨_, h1⟩ | ⟨_, _, _, h1⟩ | ⟨_, _, _, _, h1⟩
    · rw [h1]; exact hh
    · rw [h1]; exact hh
    · rw [h1]; exact has_set_of_has _ _ _ _ hh
  · intro t _ _
    exact has_of_get _ _ _
      (evictionCallback_get_of t.roomId _ r room hg (fun _ => Nat.pos_iff_ne_zero.mp hpos))

/-! ### What `sendMessage` and `disconnect` do to a stored room -/

theorem sendMessage_present (now stamp : Nat) (sid : String) (r : JsVal) (m u : JsObj)
    (s : ServerState) (room : Room) (h : JsMap.get s.rooms r = some room) :
    sendMessage now stamp sid r (some m) (some u) s =
      ({ s with rooms := JsMap.set s.rooms r
                  { room with messages := room.messages ++ [builtMessage now stamp m u] } },
        [{ target := Target.room r, payload := Payload.newMessage (builtMessage now stamp m u) }]) := by
  unfold sendMessage
  rw [h]
  rfl

theorem sendMessage_step {s s1 : ServerState} {now lag : Nat} {sid : String} {r : JsVal}
    {m u : Option JsObj} {out : List Emit}
    (h : step s now (Event.sendMessage sid r m u lag) = some (s1, out)) :
    (s1, out) = sendMessage now (now + lag) sid r m u { s with clock := now + lag } := by
  unfold step at h
  split at h
  · exact Option.noConfusion h
  · simp only [Option.some.injEq] at h
    exact h.symm

theorem JsMap.size_delete_lt_of_has {κ α : Type} [DecidableEq κ] (m : JsMap κ α) (k : κ)
    (h : JsMap.has m k = true) : JsMap.size (JsMap.delete m k) < JsMap.size m := by
  induction m with
  | nil => simp [JsMap.has, JsMap.get] at h
  | cons e m ih =>
    obtain ⟨k₀, v₀⟩ := e
    by_cases h₀ : k₀ = k
    · rw [JsMap.delete_cons, if_pos h₀]
      have := JsMap.size_delete_le m k
      simp only [JsMap.size, List.length_cons] at this ⊢
      omega
    · rw [JsMap.delete_cons, if_neg h₀]
      have hm : JsMap.has m k = true := by
        simpa [JsMap.has, JsMap.get, h₀] using h
      have := ih hm
      simp only [JsMap.size, List.length_cons] at this ⊢
      omega

theorem disconnect_present (now : Nat) (sid : String) (s : ServerState) (e : JsObj)
    (room : Room) (he : JsMap.get s.users sid = some e)
    (hroom : JsMap.get s.rooms (prop e "roomId") = some room) :
    disconnect now sid s =
      if JsMap.size (JsMap.delete room.users sid) > 0 then
        ({ s with
            rooms := JsMap.set s.rooms (prop e "roomId")
                      { room with users := JsMap.delete room.users sid }
            users := JsMap.delete s.users sid },
          [{ target := Target.roomExcept (prop e "roomId") sid,
             payload := Payload.userLeft sid (JsMap.values (JsMap.delete room.users sid)) }])
      else
        ({ s with
            rooms := JsMap.set s.rooms (prop e "roomId")
                      { room with users := JsMap.delete room.users sid }
            timers := s.timers ++ [{ roomId := prop e "roomId", setAt := now, delay := 60000 }]
            users := JsMap.delete s.users sid }, []) := by
  unfold disconnect
  simp only [he, hroom]

theorem disconnect_users_get_self (now : Nat) (sid : String) (s : ServerState)
    (h : JsMap.has s.users sid = true) :
    JsMap.get (disconnect now sid s).1.users sid = none := by
  rcases disconnect_state now sid s with ⟨hn, _⟩ | ⟨_, _, _, h1⟩ | ⟨_, _, _, _, h1⟩
  · simp [JsMap.has, hn] at h
  · rw [h1]; exact JsMap.get_delete_self _ _
  · rw [h1]; exact JsMap.get_delete_self _ _

theorem disconnect_users_get_ne (now : Nat) (sid : String) (s : ServerState) (c : String)
    (hc : c ≠ sid) : JsMap.get (disconnect now sid s).1.users c = JsMap.get s.users c := by
  rcases disconnect_state now sid s with ⟨_, h1⟩ | ⟨_, _, _, h1⟩ | ⟨_, _, _, _, h1⟩
  · rw [h1]
  · rw [h1]; exact JsMap.get_delete_ne _ hc
  · rw [h1]; exact JsMap.get_delete_ne _ hc

theorem recipients_without_sender (subs : List (String × JsVal)) (r : JsVal) (sid : String)
    (h : ∀ p ∈ subs, p.1 ≠ sid) :
    recipients subs (Target.roomExcept r sid) = recipients subs (Target.room r) := by
  show List.map Prod.fst (List.filter _ subs) = List.map Prod.fst (List.filter _ subs)
  congr 1
  apply List.filter_congr
  intro p hp
  simp [h p hp]

theorem step_room_after {s s1 : ServerState} {now : Nat} {e : Event} {out : List Emit}
    (h : step s now e = some (s1, out)) (r : JsVal) (room : Room)
    (hroom : JsMap.get s.rooms r = some room) : LogAfterStep r room e s1 := by
  refine step_cases h (fun e x => LogAfterStep r room e x) ?_ ?_ ?_ ?_
  · intro sid r0 u
    show ∃ room1, _ ∧ _
    by_cases hr : r = r0
    · subst hr
      refine ⟨_, joinRoom_rooms_self now sid r u _, ?_⟩
      rw [roomBefore_of_get { s with clock := now } r room hroom]
      rfl
    · exact ⟨room, by rw [joinRoom_rooms_ne now sid u _ hr]; exact hroom, rfl⟩
  · intro sid r0 m u lag
    show ∃ room1 added, _ ∧ _ ∧ _
    rcases sendMessage_state now (now + lag) sid r0 m u { s with clock := now + lag } with
      h1 | ⟨room0, msg, hg0, h1⟩
    · rw [h1]
      exact ⟨room, [], hroom, by simp, by simp⟩
    · rw [h1]
      by_cases hr : r = r0
      · subst hr
        have hg1 : JsMap.get s.rooms r = some room0 := hg0
        rw [hroom] at hg1
        cases hg1
        exact ⟨_, [msg], JsMap.get_set_self _ _ _, rfl, by simp⟩
      · refine ⟨room, [], ?_, by simp, by simp⟩
        show JsMap.get (JsMap.set _ _ _) r = _
        rw [JsMap.get_set_ne _ _ hr]
        exact hroom
  · intro sid
    show ∃ room1, _ ∧ _
    rcases disconnect_state now sid
      { s with clock := now, subs := s.subs.filter (fun p => decide (p.1 ≠ sid)) }
      with ⟨_, h1⟩ | ⟨_, _, _, h1⟩ | ⟨e0, room0, _, hg0, h1⟩
    · rw [h1]; exact ⟨room, hroom, rfl⟩
    · rw [h1]; exact ⟨room, hroom, rfl⟩
    · rw [h1]
      by_cases hr : r = prop e0 "roomId"
      · have hg1 : JsMap.get s.rooms (prop e0 "roomId") = some room0 := hg0
        rw [← hr, hroom] at hg1
        cases hg1
        rw [hr]
        exact ⟨_, JsMap.get_set_self _ _ _, rfl⟩
      · refine ⟨room, ?_, rfl⟩
        show JsMap.get (JsMap.set _ _ _) r = _
        rw [JsMap.get_set_ne _ _ hr]
        exact hroom
  · intro t _ _
    show _ ∨ _
    by_cases hdel : t.roomId = r ∧ JsMap.size room.users = 0
    · right
      refine ⟨?_, hdel.1, hdel.2⟩
      have hab : EmptyOrAbsent t.roomId
          { s with clock := now, timers := s.timers.erase t } := by
        intro room0 hg0
        have hg1 : JsMap.get s.rooms t.roomId = some room0 := hg0
        rw [hdel.1, hroom] at hg1
        cases hg1
        exact hdel.2
      have := evictionCallback_absent t.roomId _ hab
      rw [hdel.1] at this
      rw [← hdel.1]
      cases hg : JsMap.get (evictionCallback t.roomId
          { s with clock := now, timers := s.timers.erase t }).rooms t.roomId with
      | none => rfl
      | some x =>
        rw [hdel.1] at hg
        simp [JsMap.has, hg] at this
    · left
      refine evictionCallback_get_of t.roomId _ r room hroom ?_
      intro hr hz
      exact hdel ⟨hr.symm, hz⟩

/-! ### Registered connections are subscribed to their room -/

theorem mem_subscribe_self (subs : List (String × JsVal)) (sid : String) (r : JsVal) :
    (sid, r) ∈ subscribe subs sid r := by
  unfold subscribe
  split
  · assumption
  · simp

theorem mem_subscribe_of_mem (subs : List (String × JsVal)) (sid : String) (r : JsVal)
    (p : String × JsVal) (h : p ∈ subs) : p ∈ subscribe subs sid r := by
  unfold subscribe
  split
  · exact h
  · exact List.mem_append_left _ h

theorem joinRoom_subs (now : Nat) (sid : String) (r : JsVal) (u : Option JsObj)
    (s : ServerState) : (joinRoom now sid r u s).1.subs = subscribe s.subs sid r := by
  rw [joinRoom_state]

theorem sendMessage_users_subs (now stamp : Nat) (sid : String) (r : JsVal) (m u : Option JsObj)
    (s : ServerState) :
    (sendMessage now stamp sid r m u s).1.users = s.users ∧
      (sendMessage now stamp sid r m u s).1.subs = s.subs := by
  rcases sendMessage_state now stamp sid r m u s with h1 | ⟨_, _, _, h1⟩
  · rw [h1]; exact ⟨rfl, rfl⟩
  · rw [h1]; exact ⟨rfl, rfl⟩

theorem disconnect_subs (now : Nat) (sid : String) (s : ServerState) :
    (disconnect now sid s).1.subs = s.subs := by
  rcases disconnect_state now sid s with ⟨_, h1⟩ | ⟨_, _, _, h1⟩ | ⟨_, _, _, _, h1⟩
  · rw [h1]
  · rw [h1]
  · rw [h1]

theorem evictionCallback_subs (roomId : JsVal) (s : ServerState) :
    (evictionCallback roomId s).subs = s.subs := by
  unfold evictionCallback
  split
  · split <;> rfl
  · rfl

theorem disconnect_unregisters (now : Nat) (sid : String) (s : ServerState) :
    JsMap.get (disconnect now sid s).1.users sid = none := by
  rcases disconnect_state now sid s with ⟨hn, h1⟩ | ⟨_, _, _, h1⟩ | ⟨_, _, _, _, h1⟩
  · rw [h1]; exact hn
  · rw [h1]; exact JsMap.get_delete_self _ _
  · rw [h1]; exact JsMap.get_delete_self _ _

theorem registrySubscribed_step {s s1 : ServerState} {now : Nat} {e : Event} {out : List Emit}
    (h : step s now e = some (s1, out)) (hi : RegistrySubscribed s) : RegistrySubscribed s1 := by
  refine step_cases h (fun _ x => RegistrySubscribed x) ?_ ?_ ?_ ?_
  · intro sid r u c e he
    rw [joinRoom_users] at he
    rw [joinRoom_subs]
    rcases JsMap.get_set_cases _ _ _ _ _ he with ⟨hc, hv⟩ | ⟨_, hg⟩
    · subst hc; subst hv
      rw [prop_registryEntry_roomId]
      exact mem_subscribe_self _ _ _
    · exact mem_subscribe_of_mem _ _ _ _ (hi c e hg)
  · intro sid r m u lag c e he
    obtain ⟨hu, hs⟩ := sendMessage_users_subs now (now + lag) sid r m u
      { s with clock := now + lag }
    rw [hu] at he
    rw [hs]
    exact hi c e he
  · intro sid c e he
    rw [disconnect_subs]
    have hc : c ≠ sid := by
      intro hc
      subst hc
      rw [disconnect_unregisters] at he
      exact Option.noConfusion he
    rw [disconnect_users_get_ne _ _ _ c hc] at he
    exact List.mem_filter.mpr ⟨hi c e he, by simpa using hc⟩
  · intro t _ _ c e he
    rw [evictionCallback_users] at he
    rw [evictionCallback_subs]
    exact hi c e he

theorem init_registrySubscribed : RegistrySubscribed init := by
  intro c e h
  simp [init, JsMap.get] at h

theorem mem_recipients_room (subs : List (String × JsVal)) (r : JsVal) (c : String) :
    c ∈ recipients subs (Target.room r) ↔ (c, r) ∈ subs := by
  show c ∈ List.map Prod.fst (List.filter _ subs) ↔ _
  constructor
  · intro h
    obtain ⟨⟨c0, r0⟩, hp, hc⟩ := List.mem_map.mp h
    obtain ⟨hin, hr⟩ := List.mem_filter.mp hp
    simp only [decide_eq_true_eq] at hr
    simp only at hc
    subst hc; subst hr
    exact hin
  · intro h
    exact List.mem_map.mpr ⟨(c, r), List.mem_filter.mpr ⟨h, by simp⟩, rfl⟩

/-! ### Decimal strings of clock values -/

theorem digitValue_digitChar (k : Nat) (h : k < 10) : digitValue (Nat.digitChar k) = k := by
  interval_cases k <;> rfl

theorem decimalValue_toDigitsCore (fuel : Nat) :
    ∀ (n : Nat) (ds : List Char), n < fuel →
      decimalValue (Nat.toDigitsCore 10 fuel n ds) = n * 10 ^ ds.length + decimalValue ds := by
  induction fuel with
  | zero => intro n ds h; omega
  | succ fuel ih =>
    intro n ds h
    unfold Nat.toDigitsCore
    simp only
    have hd : digitValue (Nat.digitChar (n % 10)) = n % 10 :=
      digitValue_digitChar _ (Nat.mod_lt _ (by decide))
    by_cases h0 : n / 10 = 0
    · rw [if_pos h0]
      have hn : n % 10 = n := by omega
      simp only [decimalValue]
      rw [hd, hn]
    · rw [if_neg h0]
      have hlt : n / 10 < fuel := by omega
      rw [ih (n / 10) _ hlt]
      simp only [decimalValue, hd, List.length_cons, pow_succ]
      have hn : n = 10 * (n / 10) + n % 10 := (Nat.div_add_mod n 10).symm
      generalize 10 ^ ds.length = q
      generalize decimalValue ds = v
      generalize n / 10 = a at hn ⊢
      generalize n % 10 = b at hn ⊢
      subst hn
      ring

theorem decimalValue_toDigits (n : Nat) : decimalValue (Nat.toDigits 10 n) = n := by
  unfold Nat.toDigits
  rw [decimalValue_toDigitsCore (n + 1) n [] (Nat.lt_succ_self n)]
  simp [decimalValue]

theorem toString_nat_injective (a b : Nat) (h : toString a = toString b) : a = b := by
  have h1 : (Nat.toDigits 10 a).asString = (Nat.toDigits 10 b).asString := h
  have h2 : Nat.toDigits 10 a = Nat.toDigits 10 b := by
    have := congrArg String.data h1
    simpa [List.asString] using this
  have := congrArg decimalValue h2
  rwa [decimalValue_toDigits, decimalValue_toDigits] at this

/-! ### Stored message ids come from the clock -/

theorem step_cases_clock {s s1 : ServerState} {now : Nat} {e : Event} {out : List Emit}
    (h : step s now e = some (s1, out)) (motive : Event → ServerState → Prop)
    (hj : s.clock ≤ now → ∀ sid r u,
      motive (Event.joinRoom sid r u) (joinRoom now sid r u { s with clock := now }).1)
    (hs : s.clock ≤ now → ∀ sid r m u lag, motive (Event.sendMessage sid r m u lag)
      (sendMessage now (now + lag) sid r m u { s with clock := now + lag }).1)
    (hd : s.clock ≤ now → ∀ sid, motive (Event.disconnect sid) (disconnect now sid
      { s with clock := now, subs := s.subs.filter (fun p => decide (p.1 ≠ sid)) }).1)
    (ht : s.clock ≤ now → ∀ t, motive (Event.timeout t)
      (evictionCallback t.roomId { s with clock := now, timers := s.timers.erase t })) :
    motive e s1 := by
  have hc : s.clock ≤ now := by
    unfold step at h
    split at h
    · exact Option.noConfusion h
    · omega
  exact step_cases h motive (hj hc) (hs hc) (hd hc) (fun t _ _ => ht hc t)

theorem joinRoom_clock (now : Nat) (sid : String) (r : JsVal) (u : Option JsObj)
    (s : ServerState) : (joinRoom now sid r u s).1.clock = s.clock := by
  rw [joinRoom_state]

theorem disconnect_clock (now : Nat) (sid : String) (s : ServerState) :
    (disconnect now sid s).1.clock = s.clock := by
  rcases disconnect_state now sid s with ⟨_, h1⟩ | ⟨_, _, _, h1⟩ | ⟨_, _, _, _, h1⟩
  · rw [h1]
  · rw [h1]
  · rw [h1]

theorem evictionCallback_clock (roomId : JsVal) (s : ServerState) :
    (evictionCallback roomId s).clock = s.clock := by
  unfold evictionCallback
  split
  · split <;> rfl
  · rfl

theorem sendMessage_cases (now stamp : Nat) (sid : String) (r : JsVal) (mo uo : Option JsObj)
    (s : ServerState) :
    (sendMessage now stamp sid r mo uo s).1 = s ∨
    ∃ room m u, JsMap.get s.rooms r = some room ∧
      (sendMessage now stamp sid r mo uo s).1 =
        { s with rooms := JsMap.set s.rooms r
                  { room with messages := room.messages ++ [builtMessage now stamp m u] } } := by
  unfold sendMessage
  cases h : JsMap.get s.rooms r with
  | none => exact Or.inl rfl
  | some room =>
    cases mo with
    | none => exact Or.inl rfl
    | some m =>
      cases uo with
      | none => exact Or.inl rfl
      | some u => exact Or.inr ⟨room, m, u, rfl, rfl⟩

theorem idsFromClocks_mono (s : ServerState) (r : JsVal) (room : Room) (c : Nat)
    (hi : IdsFromClocks s) (hg : JsMap.get s.rooms r = some room) (hc : s.clock ≤ c) :
    ∃ ts : List Nat, room.messages.map (fun m => m.id) = ts.map toString ∧
      ts.Pairwise (fun a b => a ≤ b) ∧ ∀ t ∈ ts, t ≤ c := by
  obtain ⟨ts, h1, h2, h3⟩ := hi r room hg
  exact ⟨ts, h1, h2, fun t ht => Nat.le_trans (h3 t ht) hc⟩

theorem idsFromClocks_step {s s1 : ServerState} {now : Nat} {e : Event} {out : List Emit}
    (h : step s now e = some (s1, out)) (hi : IdsFromClocks s) : IdsFromClocks s1 := by
  refine step_cases_clock h (fun _ x => IdsFromClocks x) ?_ ?_ ?_ ?_
  · intro hc sid r u r0 room hg
    rw [joinRoom_clock]
    by_cases hr : r0 = r
    · subst hr
      rw [joinRoom_rooms_self] at hg
      cases hg
      cases h0 : JsMap.get s.rooms r0 with
      | none =>
        refine ⟨[], ?_, List.Pairwise.nil, by simp⟩
        have h0' : JsMap.get ({ s with clock := now } : ServerState).rooms r0 = none := h0
        simp [withMember, roomBefore, h0', newRoom]
      | some room0 =>
        have hb : roomBefore { s with clock := now } r0 = room0 :=
          roomBefore_of_get { s with clock := now } r0 room0 h0
        rw [hb]
        exact idsFromClocks_mono s r0 room0 now hi h0 hc
    · rw [joinRoom_rooms_ne now sid u _ hr] at hg
      exact idsFromClocks_mono s r0 room now hi hg hc
  · intro hc sid r mo uo lag r0 room hg
    have hc1 : s.clock ≤ now + lag := by omega
    rcases sendMessage_cases now (now + lag) sid r mo uo { s with clock := now + lag }
      with h1 | ⟨room0, m, u, hg0, h1⟩
    · rw [h1] at hg ⊢
      exact idsFromClocks_mono s r0 room (now + lag) hi hg hc1
    · rw [h1] at hg ⊢
      rcases JsMap.get_set_cases _ _ _ _ _ hg with ⟨hk, hw⟩ | ⟨_, hg1⟩
      · subst hk; subst hw
        obtain ⟨ts, ht1, ht2, ht3⟩ := hi r0 room0 hg0
        refine ⟨ts ++ [now], ?_, ?_, ?_⟩
        · simp only [List.map_append, List.map_cons, List.map_nil, ht1]
          rfl
        · rw [List.pairwise_append]
          refine ⟨ht2, List.pairwise_singleton _ _, ?_⟩
          intro a ha b hb
          simp only [List.mem_singleton] at hb
          subst hb
          exact Nat.le_trans (ht3 a ha) hc
        · intro t ht
          simp only [List.mem_append, List.mem_singleton] at ht
          rcases ht with ht | ht
          · exact Nat.le_trans (ht3 t ht) hc1
          · subst ht
            exact Nat.le_add_right _ _
      · exact idsFromClocks_mono s r0 room (now + lag) hi hg1 hc1
  · intro hc sid r0 room hg
    rw [disconnect_clock]
    rcases disconnect_state now sid
      { s with clock := now, subs := s.subs.filter (fun p => decide (p.1 ≠ sid)) }
      with ⟨_, h1⟩ | ⟨_, _, _, h1⟩ | ⟨e0, room0, _, hg0, h1⟩
    · rw [h1] at hg; exact idsFromClocks_mono s r0 room now hi hg hc
    · rw [h1] at hg; exact idsFromClocks_mono s r0 room now hi hg hc
    · rw [h1] at hg
      rcases JsMap.get_set_cases _ _ _ _ _ hg with ⟨hk, hw⟩ | ⟨_, hg1⟩
      · subst hw
        exact idsFromClocks_mono s _ room0 now hi hg0 hc
      · exact idsFromClocks_mono s r0 room now hi hg1 hc
  · intro hc t r0 room hg
    rw [evictionCallback_clock]
    exact idsFromClocks_mono s r0 room now hi (evictionCallback_get _ _ _ _ hg).1 hc

theorem init_idsFromClocks : IdsFromClocks init := by
  intro r room h
  simp [init, JsMap.get] at h

/-! ### The `id` of a member record -/

theorem get_foldl_set_of_none (o : JsObj) (k : String) (h : JsMap.get o k = none) :
    ∀ acc : JsObj, JsMap.get (o.foldl (fun acc e => JsMap.set acc e.1 e.2) acc) k
      = JsMap.get acc k := by
  induction o with
  | nil => intro acc; rfl
  | cons e o ih =>
    intro acc
    obtain ⟨k₀, v₀⟩ := e
    by_cases h₀ : k₀ = k
    · simp [JsMap.get, h₀] at h
    · simp only [JsMap.get, h₀, if_false] at h
      simp only [List.foldl_cons]
      rw [ih h]
      exact JsMap.get_set_ne _ _ (fun hh => h₀ hh.symm)

/-! ### A connection that has not closed is registered and subscribed where it is a member -/

theorem memberLive_step {c : String} {s s1 : ServerState} {now : Nat} {e : Event}
    {out : List Emit} (h : step s now e = some (s1, out)) (hne : e ≠ Event.disconnect c)
    (hi : MemberLive c s) : MemberLive c s1 := by
  refine step_cases h (fun e x => e ≠ Event.disconnect c → MemberLive c x) ?_ ?_ ?_ ?_ hne
  · intro sid r u _ r1 room hg hh
    rw [joinRoom_users, joinRoom_subs]
    by_cases hc : c = sid
    · subst hc
      refine ⟨JsMap.has_set_self _ _ _, ?_⟩
      by_cases hr : r1 = r
      · subst hr
        exact mem_subscribe_self _ _ _
      · rw [joinRoom_rooms_ne now c u _ hr] at hg
        exact mem_subscribe_of_mem _ _ _ _ (hi r1 room hg hh).2
    · have hold : JsMap.has s.users c = true ∧ (c, r1) ∈ s.subs := by
        by_cases hr : r1 = r
        · subst hr
          rw [joinRoom_rooms_self] at hg
          cases hg
          have hh1 : JsMap.has (roomBefore { s with clock := now } r1).users c = true := by
            have : JsMap.has (JsMap.set (roomBefore { s with clock := now } r1).users sid
                (memberRecord sid u now)) c = true := hh
            rwa [JsMap.has_set_ne _ _ hc] at this
          cases h0 : JsMap.get s.rooms r1 with
          | none =>
            have h0' : JsMap.get ({ s with clock := now } : ServerState).rooms r1 = none := h0
            simp [roomBefore, h0', newRoom, JsMap.has, JsMap.get] at hh1
          | some room0 =>
            rw [roomBefore_of_get { s with clock := now } r1 room0 h0] at hh1
            exact hi r1 room0 h0 hh1
        · rw [joinRoom_rooms_ne now sid u _ hr] at hg
          exact hi r1 room hg hh
      exact ⟨has_set_of_has _ _ _ _ hold.1, mem_subscribe_of_mem _ _ _ _ hold.2⟩
  · intro sid r m u lag _ r1 room hg hh
    obtain ⟨hu, hs⟩ := sendMessage_users_subs now (now + lag) sid r m u
      { s with clock := now + lag }
    rw [hu, hs]
    rcases sendMessage_state now (now + lag) sid r m u { s with clock := now + lag }
      with h1 | ⟨room0, msg, hg0, h1⟩
    · rw [h1] at hg
      exact hi r1 room hg hh
    · rw [h1] at hg
      rcases JsMap.get_set_cases _ _ _ _ _ hg with ⟨hk, hw⟩ | ⟨_, hg1⟩
      · subst hk; subst hw
        exact hi r1 room0 hg0 hh
      · exact hi r1 room hg1 hh
  · intro sid hsid r1 room hg hh
    have hc : c ≠ sid := by
      intro hc
      subst hc
      exact hsid rfl
    rw [disconnect_subs]
    have hold : JsMap.has s.users c = true ∧ (c, r1) ∈ s.subs := by
      rcases disconnect_state now sid
        { s with clock := now, subs := s.subs.filter (fun p => decide (p.1 ≠ sid)) }
        with ⟨_, h1⟩ | ⟨_, _, _, h1⟩ | ⟨e0, room0, _, hg0, h1⟩
      · rw [h1] at hg; exact hi r1 room hg hh
      · rw [h1] at hg; exact hi r1 room hg hh
      · rw [h1] at hg
        rcases JsMap.get_set_cases _ _ _ _ _ hg with ⟨hk, hw⟩ | ⟨_, hg1⟩
        · subst hw
          have hh1 : JsMap.has (JsMap.delete room0.users sid) c = true := hh
          rw [JsMap.has_delete_ne _ hc] at hh1
          rw [hk]
          exact hi _ room0 hg0 hh1
        · exact hi r1 room hg1 hh
    refine ⟨?_, List.mem_filter.mpr ⟨hold.2, by simpa using hc⟩⟩
    unfold JsMap.has
    rw [disconnect_users_get_ne _ _ _ c hc]
    exact hold.1
  · intro t _ _ _ r1 room hg hh
    rw [evictionCallback_users, evictionCallback_subs]
    exact hi r1 room (evictionCallback_get _ _ _ _ hg).1 hh

theorem run_memberLive (c : String) :
    ∀ (tr : List (Nat × Event)) (s s1 : ServerState), run s tr = some s1 →
      neverCloses c tr = true → MemberLive c s → MemberLive c s1 := by
  intro tr
  induction tr with
  | nil =>
    intro s s1 h _ hp
    simp only [run, Option.some.injEq] at h
    exact h ▸ hp
  | cons te rest ih =>
    intro s s1 h hg hp
    obtain ⟨now, e⟩ := te
    simp only [run] at h
    simp only [neverCloses, List.all_cons, Bool.and_eq_true, decide_eq_true_eq] at hg
    cases hs : step s now e with
    | none => simp [hs] at h
    | some p =>
      obtain ⟨s2, out⟩ := p
      simp only [hs] at h
      exact ih s2 s1 h hg.2 (memberLive_step hs hg.1 hp)

theorem init_memberLive (c : String) : MemberLive c init := by
  intro r room h
  simp [init, JsMap.get] at h

/-! ## The claims -/

/-- C1 (amended): along every run from the empty stores in which connection `sid` does not
issue `joinRoom` for a room other than the one its registry entry names, whatever the
other connections do, `sid` is a key of the member map of at most one stored room. -/
theorem C1_member_of_at_most_one_room (tr : List (Nat × Event)) (s : ServerState)
    (sid : String) (hrun : run init tr = some s)
    (hsingle : singleRoomRun sid init tr = true) :
    (memberRooms s sid).length ≤ 1 := by
  have hk : KeysNodup s :=
    run_preserves KeysNodup (fun _ _ _ _ _ h hi => keysNodup_step h hi) tr init s hrun
      init_keysNodup
  have hm : MemberRegistered sid s := run_memberRegistered sid tr init s hrun hsingle
    (init_memberRegistered sid)
  refine length_le_one_of_all_eq _ (memberRooms_nodup s sid hk) ?_
  intro x hx y hy
  obtain ⟨roomx, hgx, hhx⟩ := (mem_memberRooms s sid hk x).mp hx
  obtain ⟨roomy, hgy, hhy⟩ := (mem_memberRooms s sid hk y).mp hy
  obtain ⟨e, he, hpx⟩ := hm x roomx hgx hhx
  obtain ⟨e1, he1, hpy⟩ := hm y roomy hgy hhy
  rw [he] at he1
  cases he1
  exact hpx.symm.trans hpy

/-- Witness for C1: in a run where connection `z` joins two rooms, connection `a`, which
joins only `r1`, is a member of at most one room. -/
theorem C1_member_of_at_most_one_room_witness :
    run init rogueRun = some rogueState ∧ singleRoomRun "a" init rogueRun = true ∧
      singleRoomRun "z" init rogueRun = false ∧
      (memberRooms rogueState "a").length ≤ 1 :=
  ⟨rfl, by decide, by decide,
    C1_member_of_at_most_one_room rogueRun rogueState "a" rfl (by decide)⟩

/-- C1 (as stated) fails: after connection `a` joins `r1` and then `r2`, it is a key of the
member maps of both rooms. -/
theorem C1_counterexample :
    ∃ s, run init twoRoomJoins = some s ∧ memberRooms s "a" = [r1, r2] ∧
      ¬ (memberRooms s "a").length ≤ 1 :=
  ⟨_, rfl, by decide, by decide⟩

/-- C2 (amended): in every reachable state a connection that has a ConnectionRegistry
entry is a key of the member map of some stored room; and a connection `sid` that is a key
of the member map of some stored room has a registry entry, provided that along the run
`sid` did not issue `joinRoom` for a room other than the one its registry entry named, or
that `sid` did not disconnect, whatever the other connections did. -/
theorem C2_registered_iff_member (tr : List (Nat × Event)) (s : ServerState)
    (hrun : run init tr = some s) (sid : String) :
    (JsMap.has s.users sid = true →
      ∃ r room, JsMap.get s.rooms r = some room ∧ JsMap.has room.users sid = true) ∧
    ((singleRoomRun sid init tr = true ∨ neverCloses sid tr = true) →
      (∃ r room, JsMap.get s.rooms r = some room ∧ JsMap.has room.users sid = true) →
      JsMap.has s.users sid = true) := by
  have hr : RegistrySound s :=
    run_preserves RegistrySound (fun _ _ _ _ _ h hi => registrySound_step h hi) tr init s hrun
      init_registrySound
  constructor
  · intro hh
    unfold JsMap.has at hh
    cases he : JsMap.get s.users sid with
    | none => simp [he] at hh
    | some e =>
      obtain ⟨room, hg, hmem⟩ := hr sid e he
      exact ⟨_, room, hg, hmem⟩
  · rintro (hsingle | hopen) ⟨r, room, hg, hmem⟩
    · have hm : MemberRegistered sid s := run_memberRegistered sid tr init s hrun hsingle
        (init_memberRegistered sid)
      obtain ⟨e, he, _⟩ := hm r room hg hmem
      simp [JsMap.has, he]
    · exact (run_memberLive sid tr init s hrun hopen (init_memberLive sid) r room hg hmem).1

/-- Witness for C2: connection `a` joined `r1` and then `r2` and has not disconnected; it
is a member of `r1`, and registered. -/
theorem C2_registered_iff_member_witness :
    run init twoRoomsOpenRun = some twoRoomsOpenState ∧
      neverCloses "a" twoRoomsOpenRun = true ∧
      (∃ r room, JsMap.get twoRoomsOpenState.rooms r = some room ∧
        JsMap.has room.users "a" = true) ∧
      JsMap.has twoRoomsOpenState.users "a" = true :=
  ⟨rfl, by decide,
    ⟨r1, (JsMap.get twoRoomsOpenState.rooms r1).getD (newRoom r1), rfl, by decide⟩,
    (C2_registered_iff_member twoRoomsOpenRun twoRoomsOpenState rfl "a").2
      (Or.inr (by decide))
      ⟨r1, (JsMap.get twoRoomsOpenState.rooms r1).getD (newRoom r1), rfl, by decide⟩⟩

/-- C2 (as stated) fails: after connection `a` joins `r1`, then `r2`, and closes, it has no
registry entry but is still a key of the member map of `r1`. -/
theorem C2_counterexample :
    ∃ s, run init twoRoomJoinsThenClose = some s ∧ JsMap.has s.users "a" = false ∧
      ∃ room, JsMap.get s.rooms r1 = some room ∧ JsMap.has room.users "a" = true :=
  ⟨_, rfl, by decide, _, rfl, by decide⟩

/-- C3 (code at the failing input): room `r1` empties at 1000 (timer due at 61000), is
joined at 30000 and empties again at 60000, so its grace period runs to 120000; the
timer left from the first emptying runs at 61000, finds the room empty and deletes it. -/
theorem C3_stale_timer_evicts_within_grace_period :
    ∃ s0 s1 s2 room0 room1,
      run init emptiedTwice.dropLast = some s0 ∧
      JsMap.get s0.rooms r1 = some room0 ∧ JsMap.keys room0.users = ["b"] ∧
      step s0 60000 (Event.disconnect "b") = some (s1, []) ∧
      JsMap.get s1.rooms r1 = some room1 ∧ JsMap.size room1.users = 0 ∧
      s1.timers = [{ roomId := r1, setAt := 1000, delay := 60000 },
                   { roomId := r1, setAt := 60000, delay := 60000 }] ∧
      step s1 61000 (Event.timeout { roomId := r1, setAt := 1000, delay := 60000 })
        = some (s2, []) ∧
      JsMap.has s2.rooms r1 = false ∧ 60000 ≤ 61000 ∧ 61000 < 60000 + 60000 :=
  ⟨_, _, _, _, _, rfl, rfl, by decide, rfl, rfl, by decide, by decide, rfl, by decide,
    by decide, by decide⟩

/-- C4 (amended): in every reachable state every stored room with 0 members has a pending
eviction timer for its id; and when a disconnect at time `t` empties room `r`, the timer
`(r, t, 60000)` is pending, and if no join for `r` occurs before that timer runs, `r` is
absent from RoomStore once it has run. -/
theorem C4_empty_room_is_evicted (tr : List (Nat × Event)) (s : ServerState)
    (hrun : run init tr = some s) :
    (∀ r room, JsMap.get s.rooms r = some room → JsMap.size room.users = 0 →
      ∃ t, t ∈ s.timers ∧ t.roomId = r) ∧
    (∀ (t : Nat) (sid : String) (out : List Emit) (s1 : ServerState) (r : JsVal)
      (room0 room1 : Room),
      JsMap.get s.rooms r = some room0 → JsMap.has room0.users sid = true →
      step s t (Event.disconnect sid) = some (s1, out) →
      JsMap.get s1.rooms r = some room1 → JsMap.size room1.users = 0 →
      ({ roomId := r, setAt := t, delay := 60000 } : Timer) ∈ s1.timers ∧
      ∀ (mid : List (Nat × Event)) (s2 s3 : ServerState) (fire : Nat) (out3 : List Emit),
        run s1 mid = some s2 → (∀ x ∈ mid, isJoinOf r x.2 = false) →
        step s2 fire (Event.timeout { roomId := r, setAt := t, delay := 60000 })
          = some (s3, out3) →
        JsMap.has s3.rooms r = false) := by
  refine ⟨run_preserves EmptyRoomsTimed (fun _ _ _ _ _ h hi => emptyRoomsTimed_step h hi)
    tr init s hrun init_emptyRoomsTimed, ?_⟩
  intro t sid out s1 r room0 room1 h0 hm hstep h1 hz
  have hd := disconnect_step hstep
  have hs1 : s1 = (disconnect t sid
      { s with clock := t, subs := s.subs.filter (fun p => decide (p.1 ≠ sid)) }).1 :=
    congrArg Prod.fst hd
  refine ⟨?_, ?_⟩
  · rw [hs1] at h1 ⊢
    exact disconnect_emptied_timer t sid _ r room0 room1 h0 hm h1 hz
  · intro mid s2 s3 fire out3 hmid hnj hfire
    have he1 : EmptyOrAbsent r s1 := by
      intro room hg
      rw [h1] at hg
      cases hg
      exact hz
    have he2 : EmptyOrAbsent r s2 := emptyOrAbsent_run r mid s1 s2 hmid hnj he1
    obtain ⟨hs3, _, _, _⟩ := timeout_step hfire
    rw [hs3]
    exact evictionCallback_absent r _ he2

/-- Witness for C4: `a` joins `r1` and closes at 1000; `c` joins `r2` meanwhile; the timer
runs at 61000 and `r1` is gone. -/
theorem C4_empty_room_is_evicted_witness :
    ∃ s s1 s2 s3, run init [(0, Event.joinRoom "a" r1 alice)] = some s ∧
      step s 1000 (Event.disconnect "a") = some (s1, []) ∧
      run s1 [(5000, Event.joinRoom "c" r2 bob)] = some s2 ∧
      step s2 61000 (Event.timeout { roomId := r1, setAt := 1000, delay := 60000 })
        = some (s3, []) ∧
      JsMap.has s3.rooms r1 = false :=
  ⟨_, _, _, _, rfl, rfl, rfl, rfl,
    ((C4_empty_room_is_evicted [(0, Event.joinRoom "a" r1 alice)] _ rfl).2 1000 "a" [] _ r1 _ _
      rfl (by decide) rfl rfl (by decide)).2 [(5000, Event.joinRoom "c" r2 bob)] _ _ 61000 []
      rfl (by decide) rfl⟩

/-- C4 (as stated) fails: the disconnect at 1000 empties `r1`, no join for `r1` occurs
before 1000 + 60000, a join occurs at 61000, and after the timer set at 1000 has run (at
61001) `r1` is still stored. -/
theorem C4_counterexample :
    ∃ s s1 s2 s3 room1, run init [(0, Event.joinRoom "a" r1 alice)] = some s ∧
      step s 1000 (Event.disconnect "a") = some (s1, []) ∧
      JsMap.get s1.rooms r1 = some room1 ∧ JsMap.size room1.users = 0 ∧
      run s1 joinBeforeLateTimer = some s2 ∧
      (∀ x ∈ joinBeforeLateTimer, isJoinOf r1 x.2 = true → 1000 + 60000 ≤ x.1) ∧
      step s2 61001 (Event.timeout { roomId := r1, setAt := 1000, delay := 60000 })
        = some (s3, []) ∧
      JsMap.has s3.rooms r1 = true :=
  ⟨_, _, _, _, _, rfl, rfl, rfl, by decide, rfl, by decide, rfl, by decide⟩

/-- C5: the eviction callback reads the state at the time it runs.  Room `r` is deleted by
it (stored before, not stored after) exactly when `r` is stored with 0 members at that
moment; no step of any kind removes a stored room that has a member; and when `r` is not
stored or has a member, the callback returns the state it was given, so the timer step
changes nothing but the clock and the consumed timer. -/
theorem C5_eviction_rechecks_when_it_runs (s : ServerState) (r : JsVal) :
    ((JsMap.has s.rooms r = true ∧ JsMap.has (evictionCallback r s).rooms r = false) ↔
      ∃ room, JsMap.get s.rooms r = some room ∧ JsMap.size room.users = 0) ∧
    (∀ (now : Nat) (e : Event) (s1 : ServerState) (out : List Emit) (room : Room),
      step s now e = some (s1, out) → JsMap.get s.rooms r = some room →
      0 < JsMap.size room.users → JsMap.has s1.rooms r = true) ∧
    ((JsMap.get s.rooms r = none ∨
        ∃ room, JsMap.get s.rooms r = some room ∧ 0 < JsMap.size room.users) →
      evictionCallback r s = s ∧
      ∀ (now : Nat) (t : Timer) (s1 : ServerState) (out : List Emit), t.roomId = r →
        step s now (Event.timeout t) = some (s1, out) →
        s1 = { s with clock := now, timers := s.timers.erase t } ∧ out = []) := by
  refine ⟨⟨?_, ?_⟩, ?_, ?_⟩
  · rintro ⟨hbefore, hafter⟩
    unfold JsMap.has at hbefore
    cases hg : JsMap.get s.rooms r with
    | none => simp [hg] at hbefore
    | some room =>
      refine ⟨room, rfl, ?_⟩
      by_contra hz
      have := evictionCallback_get_of r s r room hg (fun _ => hz)
      simp [JsMap.has, this] at hafter
  · rintro ⟨room, hg, hz⟩
    refine ⟨has_of_get _ _ _ hg, evictionCallback_absent r s ?_⟩
    intro room1 hg1
    rw [hg] at hg1
    cases hg1
    exact hz
  · intro now e s1 out room hstep hg hpos
    exact step_keeps_inhabited_room hstep r room hg hpos
  · intro hcase
    have hcb : ∀ s0 : ServerState, s0.rooms = s.rooms → evictionCallback r s0 = s0 := by
      intro s0 hrooms
      unfold evictionCallback
      rw [hrooms]
      rcases hcase with hnone | ⟨room, hg, hpos⟩
      · simp [hnone]
      · have hz : ¬ JsMap.size room.users = 0 := Nat.pos_iff_ne_zero.mp hpos
        simp [hg, hz]
    refine ⟨hcb s rfl, ?_⟩
    intro now t s1 out ht hstep
    obtain ⟨hs1, hout, _, _⟩ := timeout_step hstep
    rw [ht] at hs1
    exact ⟨hs1.trans (hcb _ rfl), hout⟩

/-- Witness for C5: in the state reached by the sample run `r1` has the single member `a`;
the disconnect of `a` keeps the room stored, and the callback for `r1` returns the state
unchanged. -/
theorem C5_eviction_rechecks_when_it_runs_witness :
    run init sampleRun = some sampleState ∧
      (∃ s1, step sampleState 9 (Event.disconnect "a") = some (s1, []) ∧
        JsMap.has s1.rooms r1 = true) ∧
      evictionCallback r1 sampleState = sampleState :=
  ⟨rfl,
    ⟨(disconnect 9 "a" { sampleState with
        clock := 9, subs := sampleState.subs.filter (fun p => decide (p.1 ≠ "a")) }).1, rfl,
      (C5_eviction_rechecks_when_it_runs sampleState r1).2.1 9 (Event.disconnect "a")
        (disconnect 9 "a" { sampleState with
          clock := 9, subs := sampleState.subs.filter (fun p => decide (p.1 ≠ "a")) }).1 []
        ((JsMap.get sampleState.rooms r1).getD (newRoom r1)) rfl rfl (by decide)⟩,
    ((C5_eviction_rechecks_when_it_runs sampleState r1).2.2
      (Or.inr ⟨(JsMap.get sampleState.rooms r1).getD (newRoom r1), rfl, by decide⟩)).1⟩

/-- C6: when room `r` is stored with log `room.messages` of length `n`, the `roomData`
snapshot sent by `joinRoom` goes to the joiner and its `messages` are the log with its
first `n - 50` entries dropped (`n - 50` is `0` when `n ≤ 50`), that is the last
`min n 50` messages in log order; the stored log is the same after the join. -/
theorem C6_roomData_last_fifty (now : Nat) (sid : String) (r : JsVal) (u : Option JsObj)
    (s : ServerState) (room : Room) (hroom : JsMap.get s.rooms r = some room) :
    ∃ snap, sentRoomData (joinRoom now sid r u s).2 = [(Target.socket sid, snap)] ∧
      snap.messages = room.messages.drop (room.messages.length - 50) ∧
      snap.messages.length = min room.messages.length 50 ∧
      room.messages.take (room.messages.length - 50) ++ snap.messages = room.messages ∧
      (JsMap.get (joinRoom now sid r u s).1.rooms r).map Room.messages = some room.messages := by
  refine ⟨_, sentRoomData_joinRoom now sid r u s, ?_, ?_, ?_, ?_⟩
  · rw [roomBefore_of_get s r room hroom]
    exact slice_last_fifty room.messages
  · rw [roomBefore_of_get s r room hroom]
    show (slice room.messages (-50)).length = _
    rw [slice_last_fifty, List.length_drop]
    omega
  · rw [roomBefore_of_get s r room hroom]
    show _ ++ slice room.messages (-50) = _
    rw [slice_last_fifty]
    exact List.take_append_drop _ _
  · rw [joinRoom_rooms_self, roomBefore_of_get s r room hroom]
    rfl

/-- Witness for C6: a join into a room whose log has 52 messages; the snapshot starts at
the third one. -/
theorem C6_roomData_last_fifty_witness :
    JsMap.get longLogState.rooms r1
        = some { id := r1, users := [("a", memberRecord "a" alice 0)], messages := longLog,
                 questions := [], polls := [] } ∧
      ∃ snap, sentRoomData (joinRoom 61 "b" r1 bob longLogState).2 = [(Target.socket "b", snap)] ∧
        snap.messages = longLog.drop (longLog.length - 50) ∧
        snap.messages.length = min longLog.length 50 ∧
        longLog.take (longLog.length - 50) ++ snap.messages = longLog ∧
        (JsMap.get (joinRoom 61 "b" r1 bob longLogState).1.rooms r1).map Room.messages
          = some longLog :=
  ⟨rfl, C6_roomData_last_fifty 61 "b" r1 bob longLogState
    { id := r1, users := [("a", memberRecord "a" alice 0)], messages := longLog,
      questions := [], polls := [] } rfl⟩

/-- C7: `joinRoom` for a room id that is not a key of `rooms` adds exactly one room, after
the others, which are untouched; the new room has that id, no messages, questions or polls,
and exactly one member entry, keyed by the joining connection; the `roomData` sent to the
joiner has an empty message list. -/
theorem C7_join_creates_room (now : Nat) (sid : String) (r : JsVal) (u : Option JsObj)
    (s : ServerState) (habsent : JsMap.get s.rooms r = none) :
    (joinRoom now sid r u s).1.rooms =
        s.rooms ++ [(r, { id := r, users := [(sid, memberRecord sid u now)], messages := [],
                          questions := [], polls := [] })] ∧
      JsMap.size (joinRoom now sid r u s).1.rooms = JsMap.size s.rooms + 1 ∧
      (∀ r0, r0 ≠ r → JsMap.get (joinRoom now sid r u s).1.rooms r0 = JsMap.get s.rooms r0) ∧
      ∃ snap, sentRoomData (joinRoom now sid r u s).2 = [(Target.socket sid, snap)] ∧
        snap.id = r ∧ snap.messages = [] := by
  have hrooms : (joinRoom now sid r u s).1.rooms =
      s.rooms ++ [(r, { id := r, users := [(sid, memberRecord sid u now)], messages := [],
                        questions := [], polls := [] })] := by
    rw [joinRoom_state]
    show JsMap.set (ensureRoom s.rooms r) r _ = _
    have he : ensureRoom s.rooms r = s.rooms ++ [(r, newRoom r)] := by
      simp [ensureRoom, JsMap.has, habsent, JsMap.set_of_get_none]
    rw [he, JsMap.set_append_new _ _ _ _ habsent]
    simp [withMember, roomBefore, habsent, newRoom, JsMap.set]
  refine ⟨hrooms, ?_, ?_, _, sentRoomData_joinRoom now sid r u s, ?_, ?_⟩
  · rw [hrooms]
    simp [JsMap.size]
  · intro r0 hr0
    exact joinRoom_rooms_ne now sid u s hr0
  · simp [roomSnapshot, withMember, roomBefore, habsent, newRoom]
  · simp [roomSnapshot, withMember, roomBefore, habsent, newRoom, slice]

/-- Witness for C7: the first join of the server creates room `r1`. -/
theorem C7_join_creates_room_witness :
    JsMap.get init.rooms r1 = none ∧
      (joinRoom 0 "a" r1 alice init).1.rooms =
        init.rooms ++ [(r1, { id := r1, users := [("a", memberRecord "a" alice 0)],
                              messages := [], questions := [], polls := [] })] :=
  ⟨rfl, (C7_join_creates_room 0 "a" r1 alice init rfl).1⟩

/-- C8: when connection `sid` already has a member entry in the stored room `r`,
`joinRoom` with profile `p` keeps the number and the keys of the members of `r` (one entry
keyed by `sid`), leaves every other member entry as it was, and makes the entry of `sid` the
record built from `p` (every property of `p` but `joinedAt`, which is the join time);
joining a second time with the same profile at the same clock value gives the same state
as joining once. -/
theorem C8_rejoin_updates_entry (now : Nat) (sid : String) (r : JsVal) (p : JsObj)
    (s : ServerState) (room : Room) (old : JsObj)
    (hroom : JsMap.get s.rooms r = some room) (hmem : JsMap.get room.users sid = some old)
    (hmap : (JsMap.keys room.users).Nodup) (hobj : (JsMap.keys p).Nodup) :
    ∃ room1, JsMap.get (joinRoom now sid r (some p) s).1.rooms r = some room1 ∧
      JsMap.size room1.users = JsMap.size room.users ∧
      JsMap.keys room1.users = JsMap.keys room.users ∧
      (JsMap.keys room1.users).count sid = 1 ∧
      (∀ c, c ≠ sid → JsMap.get room1.users c = JsMap.get room.users c) ∧
      JsMap.get room1.users sid = some (memberRecord sid (some p) now) ∧
      (∀ k v, JsMap.get p k = some v → k ≠ "joinedAt" →
        prop (memberRecord sid (some p) now) k = v) ∧
      prop (memberRecord sid (some p) now) "joinedAt" = JsVal.date now ∧
      (joinRoom now sid r (some p) (joinRoom now sid r (some p) s).1).1
        = (joinRoom now sid r (some p) s).1 := by
  refine ⟨_, joinRoom_rooms_self now sid r (some p) s, ?_, ?_, ?_, ?_, ?_, ?_, ?_, ?_⟩
  · rw [roomBefore_of_get s r room hroom]
    exact JsMap.size_set_of_get _ _ _ _ hmem
  · rw [roomBefore_of_get s r room hroom]
    exact JsMap.keys_set_of_get _ _ _ _ hmem
  · rw [roomBefore_of_get s r room hroom]
    show (JsMap.keys (JsMap.set room.users sid _)).count sid = 1
    rw [JsMap.keys_set_of_get _ _ _ _ hmem]
    exact List.count_eq_one_of_mem hmap (JsMap.mem_keys_of_get _ _ _ hmem)
  · intro c hc
    rw [roomBefore_of_get s r room hroom]
    exact JsMap.get_set_ne _ _ hc
  · rw [roomBefore_of_get s r room hroom]
    exact JsMap.get_set_self _ _ _
  · intro k v hk hj
    exact prop_memberRecord_of_profile sid p now hobj k v hk hj
  · simp [prop, memberRecord, JsMap.get_set_self]
  · exact joinRoom_idem now sid r (some p) s

/-- Witness for C8: `a`, a member of `r1` in the sample state, rejoins with another
profile. -/
theorem C8_rejoin_updates_entry_witness :
    JsMap.get sampleState.rooms r1
        = some ((JsMap.get sampleState.rooms r1).getD (newRoom r1)) ∧
      JsMap.get ((JsMap.get sampleState.rooms r1).getD (newRoom r1)).users "a"
        = some (memberRecord "a" alice 4) ∧
      (JsMap.keys ((JsMap.get sampleState.rooms r1).getD (newRoom r1)).users).Nodup ∧
      (JsMap.keys ([("name", JsVal.str "Al")] : JsObj)).Nodup ∧
      ∃ room1,
        JsMap.get (joinRoom 9 "a" r1 (some [("name", JsVal.str "Al")]) sampleState).1.rooms r1
          = some room1 ∧
        JsMap.size room1.users = 1 ∧
        JsMap.get room1.users "a" = some (memberRecord "a" (some [("name", JsVal.str "Al")]) 9) :=
  ⟨rfl, rfl, by decide, by decide,
    (C8_rejoin_updates_entry 9 "a" r1 [("name", JsVal.str "Al")] sampleState
      ((JsMap.get sampleState.rooms r1).getD (newRoom r1)) (memberRecord "a" alice 4)
      rfl rfl (by decide) (by decide)).elim
      fun room1 hr => ⟨room1, hr.1, hr.2.1, hr.2.2.2.2.2.1⟩⟩

/-- C9: a `joinRoom` of connection `sid` for room `r` with a profile `p`, run in a reachable
state, emits exactly two events: `userJoined` to the broadcast group of `r` without `sid`,
then `roomData` to `sid` alone; both carry as `users` the values of the member map of `r`
after the insertion, among them the entry of `sid`, and `roomData` carries room id `r`. -/
theorem C9_join_emits_two_events (tr : List (Nat × Event)) (s : ServerState)
    (hrun : run init tr = some s) (now : Nat) (sid : String) (r : JsVal) (p : JsObj)
    (s1 : ServerState) (out : List Emit)
    (hstep : step s now (Event.joinRoom sid r (some p)) = some (s1, out)) :
    ∃ room1 m, JsMap.get s1.rooms r = some room1 ∧
      JsMap.get room1.users sid = some m ∧ m ∈ JsMap.values room1.users ∧
      out = [{ target := Target.roomExcept r sid,
               payload := Payload.userJoined (joinedUser sid (some p))
                 (JsMap.values room1.users) },
             { target := Target.socket sid,
               payload := Payload.roomData
                 { id := r, users := JsMap.values room1.users,
                   messages := slice room1.messages (-50),
                   questions := room1.questions, polls := room1.polls } }] := by
  have hids : RoomIdsMatch s :=
    run_preserves RoomIdsMatch (fun _ _ _ _ _ h hi => roomIdsMatch_step h hi) tr init s hrun
      init_roomIdsMatch
  have hj := joinRoom_step hstep
  have hs1 : s1 = (joinRoom now sid r (some p) { s with clock := now }).1 := congrArg Prod.fst hj
  have hout : out = (joinRoom now sid r (some p) { s with clock := now }).2 :=
    congrArg Prod.snd hj
  have hid : (roomBefore { s with clock := now } r).id = r := roomBefore_id _ r hids
  have hget : JsMap.get (withMember now sid (some p) (roomBefore { s with clock := now } r)).users
      sid = some (memberRecord sid (some p) now) := JsMap.get_set_self _ _ _
  refine ⟨withMember now sid (some p) (roomBefore { s with clock := now } r),
    memberRecord sid (some p) now, ?_, hget, JsMap.mem_values_of_get _ _ _ hget, ?_⟩
  · rw [hs1]
    exact joinRoom_rooms_self now sid r (some p) _
  · rw [hout, joinRoom_out]
    simp only [List.append_nil, roomSnapshot]
    rw [show (withMember now sid (some p) (roomBefore { s with clock := now } r)).id = r from hid]

/-- Witness for C9: connection `d` joins `r1` of the sample state. -/
theorem C9_join_emits_two_events_witness :
    run init sampleRun = some sampleState ∧
      ∃ s1 out, step sampleState 9 (Event.joinRoom "d" r1 bob) = some (s1, out) ∧
        out.map (fun e => e.target) = [Target.roomExcept r1 "d", Target.socket "d"] :=
  ⟨rfl, (joinRoom 9 "d" r1 bob { sampleState with clock := 9 }).1,
    (joinRoom 9 "d" r1 bob { sampleState with clock := 9 }).2, rfl,
    (C9_join_emits_two_events sampleRun sampleState rfl 9 "d" r1 [("name", JsVal.str "Bob")]
      (joinRoom 9 "d" r1 bob { sampleState with clock := 9 }).1
      (joinRoom 9 "d" r1 bob { sampleState with clock := 9 }).2 rfl).elim
      fun _ h => h.elim fun _ hm => by rw [hm.2.2.2]; rfl⟩

/-- C10: `sendMessage` for a room id that is not a key of `rooms` returns the state it was
given and emits nothing, whatever the message and user payloads; the room is not
created. -/
theorem C10_send_to_absent_room (now stamp : Nat) (sid : String) (r : JsVal)
    (m u : Option JsObj) (s : ServerState) (habsent : JsMap.get s.rooms r = none) :
    sendMessage now stamp sid r m u s = (s, []) ∧
      JsMap.has (sendMessage now stamp sid r m u s).1.rooms r = false ∧
      ∀ lag s1 out, step s now (Event.sendMessage sid r m u lag) = some (s1, out) →
        out = [] ∧ s1.rooms = s.rooms ∧ s1.users = s.users ∧ s1.timers = s.timers ∧
          s1.subs = s.subs := by
  have h1 : ∀ (t : Nat) (s0 : ServerState), JsMap.get s0.rooms r = none →
      sendMessage now t sid r m u s0 = (s0, []) := by
    intro t s0 h0
    unfold sendMessage
    rw [h0]
  refine ⟨h1 stamp s habsent, ?_, ?_⟩
  · rw [h1 stamp s habsent]
    simp [JsMap.has, habsent]
  · intro lag s1 out hstep
    unfold step at hstep
    split at hstep
    · exact Option.noConfusion hstep
    · simp only [Option.some.injEq] at hstep
      rw [h1 (now + lag) { s with clock := now + lag } habsent] at hstep
      simp only [Prod.mk.injEq] at hstep
      obtain ⟨hs, ho⟩ := hstep
      subst hs
      exact ⟨ho.symm, rfl, rfl, rfl, rfl⟩

/-- Witness for C10: a message for `r2` sent to the server at start-up, with and without a
message payload. -/
theorem C10_send_to_absent_room_witness :
    JsMap.get init.rooms r2 = none ∧
      sendMessage 3 4 "a" r2 (some [("text", JsVal.str "hi")]) alice init = (init, []) ∧
      sendMessage 3 3 "a" r2 none none init = (init, []) :=
  ⟨rfl, (C10_send_to_absent_room 3 4 "a" r2 (some [("text", JsVal.str "hi")]) alice init rfl).1,
    (C10_send_to_absent_room 3 3 "a" r2 none none init rfl).1⟩

/-- C11: when room `r` is stored with log `room.messages`, `sendMessage` with a message
and a user payload makes the log of `r` the old log followed by exactly one message, whose
`text` is the `text` property of the message payload and whose `user` is made of the `id`,
`name` and `role` properties of the user payload; this holds whatever the length of the log
and whatever the two clock values read; the member map of `r`, every other room, the
ConnectionRegistry, the timers and the subscriptions are unchanged. -/
theorem C11_send_appends_one_message (now stamp : Nat) (sid : String) (r : JsVal)
    (m u : JsObj) (s : ServerState) (room : Room) (hroom : JsMap.get s.rooms r = some room) :
    ∃ room1 msg,
      JsMap.get (sendMessage now stamp sid r (some m) (some u) s).1.rooms r = some room1 ∧
      room1.messages = room.messages ++ [msg] ∧
      room1.messages.length = room.messages.length + 1 ∧
      msg.text = prop m "text" ∧
      msg.user = { id := prop u "id", name := prop u "name", role := prop u "role" } ∧
      room1.users = room.users ∧ room1.id = room.id ∧
      (∀ r0, r0 ≠ r → JsMap.get (sendMessage now stamp sid r (some m) (some u) s).1.rooms r0
        = JsMap.get s.rooms r0) ∧
      (sendMessage now stamp sid r (some m) (some u) s).1.users = s.users ∧
      (sendMessage now stamp sid r (some m) (some u) s).1.timers = s.timers ∧
      (sendMessage now stamp sid r (some m) (some u) s).1.subs = s.subs := by
  rw [sendMessage_present now stamp sid r m u s room hroom]
  refine ⟨{ room with messages := room.messages ++ [builtMessage now stamp m u] },
    builtMessage now stamp m u,
    JsMap.get_set_self _ _ _, rfl, by simp, rfl, rfl, rfl, rfl, ?_, rfl, rfl, rfl⟩
  intro r0 hr0
  exact JsMap.get_set_ne _ _ hr0

/-- Witness for C11: a message sent to the room with the 52-message log makes it 53 long. -/
theorem C11_send_appends_one_message_witness :
    JsMap.get longLogState.rooms r1
        = some { id := r1, users := [("a", memberRecord "a" alice 0)], messages := longLog,
                 questions := [], polls := [] } ∧
      ∃ room1 msg,
        JsMap.get (sendMessage 61 62 "a" r1 (some [("text", JsVal.str "hi")])
          (some [("id", JsVal.str "a")]) longLogState).1.rooms r1 = some room1 ∧
        room1.messages = longLog ++ [msg] ∧ room1.messages.length = longLog.length + 1 ∧
        msg.text = JsVal.str "hi" :=
  ⟨rfl,
    (C11_send_appends_one_message 61 62 "a" r1 [("text", JsVal.str "hi")]
      [("id", JsVal.str "a")] longLogState
      { id := r1, users := [("a", memberRecord "a" alice 0)], messages := longLog,
        questions := [], polls := [] } rfl).elim
      fun room1 h => h.elim fun msg hm => ⟨room1, msg, hm.1, hm.2.1, hm.2.2.1, hm.2.2.2.1⟩⟩

/-- C14: when the connection has no ConnectionRegistry entry, `disconnect` returns the state
it was given and emits nothing; when it has one, the registry has no entry for it
afterwards, whether or not the room named by the entry is stored; the entries of other
connections are unchanged in every case. -/
theorem C14_disconnect_clears_registry (now : Nat) (sid : String) (s : ServerState) :
    (JsMap.get s.users sid = none → disconnect now sid s = (s, [])) ∧
    (JsMap.has s.users sid = true → JsMap.get (disconnect now sid s).1.users sid = none) ∧
    (∀ e, JsMap.get s.users sid = some e → JsMap.get s.rooms (prop e "roomId") = none →
      JsMap.get (disconnect now sid s).1.users sid = none ∧
      (disconnect now sid s).1.rooms = s.rooms ∧ (disconnect now sid s).2 = []) ∧
    (∀ c, c ≠ sid → JsMap.get (disconnect now sid s).1.users c = JsMap.get s.users c) := by
  refine ⟨?_, disconnect_users_get_self now sid s, ?_, ?_⟩
  · intro hn
    unfold disconnect
    rw [hn]
  · intro e he hroom
    have h1 : disconnect now sid s = ({ s with users := JsMap.delete s.users sid }, []) := by
      unfold disconnect
      simp only [he, hroom]
    rw [h1]
    exact ⟨JsMap.get_delete_self _ _, rfl, rfl⟩
  · intro c hc
    exact disconnect_users_get_ne now sid s c hc

/-- Witness for C14: in the state reached by the sample run, `b` (already closed) has no
entry and `c` has one; the entry of `a` survives the disconnect of `c`. -/
theorem C14_disconnect_clears_registry_witness :
    JsMap.get sampleState.users "b" = none ∧ disconnect 9 "b" sampleState = (sampleState, []) ∧
      JsMap.has sampleState.users "c" = true ∧
      JsMap.get (disconnect 9 "c" sampleState).1.users "c" = none ∧
      JsMap.get (disconnect 9 "c" sampleState).1.users "a" = JsMap.get sampleState.users "a" :=
  ⟨rfl, (C14_disconnect_clears_registry 9 "b" sampleState).1 rfl, by decide,
    (C14_disconnect_clears_registry 9 "c" sampleState).2.1 (by decide),
    (C14_disconnect_clears_registry 9 "c" sampleState).2.2.2 "a" (by decide)⟩

/-- C15: for a registered connection whose room `r` is stored: when `r` has a member
left after the removal, `disconnect` emits exactly one event, `userLeft` with `userId` the
connection and `users` the member list after the removal (which has no entry keyed by the
connection), addressed to the broadcast group of `r` (the closed connection has left it),
and schedules no timer; when no member is left, it emits nothing and schedules exactly one
timer, for `r` with a delay of 60000 ms. -/
theorem C15_disconnect_userLeft_or_timer (now : Nat) (sid : String) (s : ServerState)
    (e : JsObj) (room : Room) (he : JsMap.get s.users sid = some e)
    (hroom : JsMap.get s.rooms (prop e "roomId") = some room) :
    JsMap.has (JsMap.delete room.users sid) sid = false ∧
    (0 < JsMap.size (JsMap.delete room.users sid) →
      (disconnect now sid s).2 =
        [{ target := Target.roomExcept (prop e "roomId") sid,
           payload := Payload.userLeft sid (JsMap.values (JsMap.delete room.users sid)) }] ∧
      (disconnect now sid s).1.timers = s.timers ∧
      (JsMap.get (disconnect now sid s).1.rooms (prop e "roomId")).map Room.users
        = some (JsMap.delete room.users sid) ∧
      ∀ subs : List (String × JsVal), (∀ p ∈ subs, p.1 ≠ sid) →
        recipients subs (Target.roomExcept (prop e "roomId") sid)
          = recipients subs (Target.room (prop e "roomId"))) ∧
    (JsMap.size (JsMap.delete room.users sid) = 0 →
      (disconnect now sid s).2 = [] ∧
      (disconnect now sid s).1.timers
        = s.timers ++ [{ roomId := prop e "roomId", setAt := now, delay := 60000 }]) := by
  rw [disconnect_present now sid s e room he hroom]
  refine ⟨JsMap.has_delete_self _ _, ?_, ?_⟩
  · intro hpos
    rw [if_pos hpos]
    refine ⟨rfl, rfl, ?_, fun subs hs => recipients_without_sender subs _ sid hs⟩
    show (JsMap.get (JsMap.set _ _ _) _).map Room.users = _
    rw [JsMap.get_set_self]
    rfl
  · intro hz
    have hn : ¬ JsMap.size (JsMap.delete room.users sid) > 0 := by omega
    rw [if_neg hn]
    exact ⟨rfl, rfl⟩

/-- Witness for C15: in the state reached by the sample run, `c` is the only member of
`r2`; its disconnect emits nothing and schedules the timer for `r2`. -/
theorem C15_disconnect_userLeft_or_timer_witness :
    JsMap.get sampleState.users "c" = some (registryEntry "c" r2 bob) ∧
      JsMap.get sampleState.rooms (prop (registryEntry "c" r2 bob) "roomId")
        = some ((JsMap.get sampleState.rooms r2).getD (newRoom r2)) ∧
      (disconnect 9 "c" sampleState).2 = [] ∧
      (disconnect 9 "c" sampleState).1.timers
        = sampleState.timers ++ [{ roomId := r2, setAt := 9, delay := 60000 }] :=
  ⟨rfl, rfl,
    ((C15_disconnect_userLeft_or_timer 9 "c" sampleState (registryEntry "c" r2 bob)
      ((JsMap.get sampleState.rooms r2).getD (newRoom r2)) rfl rfl).2.2 (by decide)).1,
    ((C15_disconnect_userLeft_or_timer 9 "c" sampleState (registryEntry "c" r2 bob)
      ((JsMap.get sampleState.rooms r2).getD (newRoom r2)) rfl rfl).2.2 (by decide)).2⟩

/-- C17: message logs are append-only.  A room stored before a `joinRoom`, `sendMessage` or
`disconnect` step is stored after it, and its log before is an initial part of its log
after: extended by at most one message, and by none unless the step is a `sendMessage`.
A timer step leaves the room as it is or removes it altogether; a room is removed only by
a timer step for that room, and only when it has no member. -/
theorem C17_logs_append_only (s s1 : ServerState) (now : Nat) (e : Event) (out : List Emit)
    (r : JsVal) (room : Room) (hstep : step s now e = some (s1, out))
    (hroom : JsMap.get s.rooms r = some room) :
    ((∀ t, e ≠ Event.timeout t) →
      ∃ room1 added, JsMap.get s1.rooms r = some room1 ∧
        room1.messages = room.messages ++ added ∧ added.length ≤ 1 ∧
        ((∀ sid r0 m u lag, e ≠ Event.sendMessage sid r0 m u lag) → added = [])) ∧
    (∀ t, e = Event.timeout t →
      JsMap.get s1.rooms r = some room ∨
        (JsMap.get s1.rooms r = none ∧ t.roomId = r ∧ JsMap.size room.users = 0)) ∧
    (JsMap.get s1.rooms r = none →
      ∃ t, e = Event.timeout t ∧ t.roomId = r ∧ JsMap.size room.users = 0) := by
  have h := step_room_after hstep r room hroom
  cases e with
  | joinRoom sid r0 u =>
    obtain ⟨room1, hg, hm⟩ := h
    refine ⟨fun _ => ⟨room1, [], hg, by simp [hm], by simp, fun _ => rfl⟩, ?_, ?_⟩
    · intro t ht
      exact Event.noConfusion ht
    · intro hnone
      rw [hnone] at hg
      exact Option.noConfusion hg
  | sendMessage sid r0 m u lag =>
    obtain ⟨room1, added, hg, hm, hl⟩ := h
    refine ⟨fun _ => ⟨room1, added, hg, hm, hl, fun hne => absurd rfl (hne sid r0 m u lag)⟩,
      ?_, ?_⟩
    · intro t ht
      exact Event.noConfusion ht
    · intro hnone
      rw [hnone] at hg
      exact Option.noConfusion hg
  | disconnect sid =>
    obtain ⟨room1, hg, hm⟩ := h
    refine ⟨fun _ => ⟨room1, [], hg, by simp [hm], by simp, fun _ => rfl⟩, ?_, ?_⟩
    · intro t ht
      exact Event.noConfusion ht
    · intro hnone
      rw [hnone] at hg
      exact Option.noConfusion hg
  | timeout t =>
    refine ⟨fun hne => absurd rfl (hne t), ?_, ?_⟩
    · intro t0 ht
      cases ht
      exact h
    · intro hnone
      rcases h with hg | ⟨_, ht, hz⟩
      · rw [hnone] at hg
        exact Option.noConfusion hg
      · exact ⟨t, rfl, ht, hz⟩

/-- Witness for C17: a message sent to `r1` of the sample state extends its log by at most
one message and keeps the room stored. -/
theorem C17_logs_append_only_witness :
    step sampleState 9 (Event.sendMessage "a" r1 yoMessage aliceSender 1)
        = some (sendMessage 9 10 "a" r1 yoMessage aliceSender { sampleState with clock := 10 }) ∧
      JsMap.get sampleState.rooms r1
        = some ((JsMap.get sampleState.rooms r1).getD (newRoom r1)) ∧
      ∃ room1 added,
        JsMap.get (sendMessage 9 10 "a" r1 yoMessage aliceSender
          { sampleState with clock := 10 }).1.rooms r1 = some room1 ∧
        room1.messages
          = ((JsMap.get sampleState.rooms r1).getD (newRoom r1)).messages ++ added ∧
        added.length ≤ 1 :=
  ⟨rfl, rfl,
    ((C17_logs_append_only sampleState
      (sendMessage 9 10 "a" r1 yoMessage aliceSender { sampleState with clock := 10 }).1 9
      (Event.sendMessage "a" r1 yoMessage aliceSender 1)
      (sendMessage 9 10 "a" r1 yoMessage aliceSender { sampleState with clock := 10 }).2 r1
      ((JsMap.get sampleState.rooms r1).getD (newRoom r1)) rfl rfl).1
      (fun _ h => Event.noConfusion h)).elim
      fun room1 h => h.elim fun added ha => ⟨room1, added, ha.1, ha.2.1, ha.2.2.1⟩⟩

/-- C20: in every reachable state, the room named by a ConnectionRegistry entry is stored
and has the connection as a key of its member map; hence the disconnect of a registered
connection finds that room and removes a member from it. -/
theorem C20_registry_entry_names_member (tr : List (Nat × Event)) (s : ServerState)
    (hrun : run init tr = some s) (c : String) (e : JsObj)
    (he : JsMap.get s.users c = some e) :
    ∃ room, JsMap.get s.rooms (prop e "roomId") = some room ∧
      JsMap.has room.users c = true ∧
      ∀ (now : Nat) (s1 : ServerState) (out : List Emit),
        step s now (Event.disconnect c) = some (s1, out) →
        ∃ room1, JsMap.get s1.rooms (prop e "roomId") = some room1 ∧
          room1.users = JsMap.delete room.users c ∧ JsMap.has room1.users c = false ∧
          JsMap.size room1.users < JsMap.size room.users := by
  have hr : RegistrySound s :=
    run_preserves RegistrySound (fun _ _ _ _ _ h hi => registrySound_step h hi) tr init s hrun
      init_registrySound
  obtain ⟨room, hroom, hmem⟩ := hr c e he
  refine ⟨room, hroom, hmem, ?_⟩
  intro now s1 out hstep
  have hd := disconnect_step hstep
  have hs1 : s1 = (disconnect now c
      { s with clock := now, subs := s.subs.filter (fun p => decide (p.1 ≠ c)) }).1 :=
    congrArg Prod.fst hd
  rw [hs1, disconnect_present now c { s with clock := now, subs := s.subs.filter (fun p => decide (p.1 ≠ c)) } e room he hroom]
  refine ⟨{ room with users := JsMap.delete room.users c }, ?_, rfl,
    JsMap.has_delete_self _ _, JsMap.size_delete_lt_of_has _ _ hmem⟩
  split
  · exact JsMap.get_set_self _ _ _
  · exact JsMap.get_set_self _ _ _

/-- Witness for C20: the entry of `a` in the state reached by the sample run names `r1`,
which has `a` as a member. -/
theorem C20_registry_entry_names_member_witness :
    run init sampleRun = some sampleState ∧
      JsMap.get sampleState.users "a" = some (registryEntry "a" r1 alice) ∧
      ∃ room, JsMap.get sampleState.rooms (prop (registryEntry "a" r1 alice) "roomId") = some room ∧
        JsMap.has room.users "a" = true :=
  ⟨rfl, rfl,
    (C20_registry_entry_names_member sampleRun sampleState rfl "a" (registryEntry "a" r1 alice)
      rfl).elim fun room h => ⟨room, h.1, h.2.1⟩⟩

/-- C12 (amended): for a `sendMessage` with message and user payloads to a room `r` stored
in a reachable state, exactly one event is emitted, `newMessage` carrying the message just
appended, addressed to the whole broadcast group of `r`.  It reaches every connection
subscribed to `r`: every connection whose registry entry names `r`, and every member of
`r` that along the run did not issue `joinRoom` for a room other than the one its registry
entry named, or did not disconnect, whatever the other connections did.  It reaches the
sending connection when that connection is subscribed to `r`. -/
theorem C12_newMessage_reaches_group (tr : List (Nat × Event)) (s : ServerState)
    (hrun : run init tr = some s) (now lag : Nat) (sid : String) (r : JsVal) (m u : JsObj)
    (room : Room) (s1 : ServerState) (out : List Emit)
    (hroom : JsMap.get s.rooms r = some room)
    (hstep : step s now (Event.sendMessage sid r (some m) (some u) lag) = some (s1, out)) :
    out = [{ target := Target.room r,
             payload := Payload.newMessage (builtMessage now (now + lag) m u) }] ∧
    (∃ room1, JsMap.get s1.rooms r = some room1 ∧
      room1.messages = room.messages ++ [builtMessage now (now + lag) m u]) ∧
    (∀ c, (c, r) ∈ s.subs → c ∈ recipients s1.subs (Target.room r)) ∧
    (∀ c e, JsMap.get s.users c = some e → prop e "roomId" = r →
      c ∈ recipients s1.subs (Target.room r)) ∧
    (∀ c, (singleRoomRun c init tr = true ∨ neverCloses c tr = true) →
      JsMap.has room.users c = true → c ∈ recipients s1.subs (Target.room r)) ∧
    ((sid, r) ∈ s.subs → sid ∈ recipients s1.subs (Target.room r)) := by
  have hsub : RegistrySubscribed s :=
    run_preserves RegistrySubscribed (fun _ _ _ _ _ h hi => registrySubscribed_step h hi)
      tr init s hrun init_registrySubscribed
  have hsend := sendMessage_step hstep
  rw [sendMessage_present now (now + lag) sid r m u { s with clock := now + lag } room hroom]
    at hsend
  simp only [Prod.mk.injEq] at hsend
  obtain ⟨hs1, hout⟩ := hsend
  have hsubs : s1.subs = s.subs := by rw [hs1]
  have hall : ∀ c, (c, r) ∈ s.subs → c ∈ recipients s1.subs (Target.room r) := by
    intro c hc
    rw [mem_recipients_room, hsubs]
    exact hc
  have hreg : ∀ c e, JsMap.get s.users c = some e → prop e "roomId" = r →
      c ∈ recipients s1.subs (Target.room r) := by
    intro c e he hr
    refine hall c ?_
    rw [← hr]
    exact hsub c e he
  refine ⟨hout, ⟨_, by rw [hs1]; exact JsMap.get_set_self _ _ _, rfl⟩, hall, hreg, ?_,
    hall sid⟩
  rintro c (hsingle | hopen) hmem
  · have hm : MemberRegistered c s := run_memberRegistered c tr init s hrun hsingle
      (init_memberRegistered c)
    obtain ⟨e, he, hr⟩ := hm r room hroom hmem
    exact hreg c e he hr
  · exact hall c (run_memberLive c tr init s hrun hopen (init_memberLive c) r room hroom hmem).2

/-- Witness for C12: connection `a` joined `r1` and then `r2` and has not disconnected; `b`
sends to `r1`, and the member `a` is among the recipients. -/
theorem C12_newMessage_reaches_group_witness :
    run init twoRoomsOpenRun = some twoRoomsOpenState ∧
      JsMap.get twoRoomsOpenState.rooms r1
        = some ((JsMap.get twoRoomsOpenState.rooms r1).getD (newRoom r1)) ∧
      step twoRoomsOpenState 9 (Event.sendMessage "b" r1 (some [("text", JsVal.str "yo")])
          (some [("id", JsVal.str "b")]) 1)
        = some (sendMessage 9 10 "b" r1 (some [("text", JsVal.str "yo")])
            (some [("id", JsVal.str "b")]) { twoRoomsOpenState with clock := 10 }) ∧
      neverCloses "a" twoRoomsOpenRun = true ∧
      JsMap.has ((JsMap.get twoRoomsOpenState.rooms r1).getD (newRoom r1)).users "a" = true ∧
      "a" ∈ recipients (sendMessage 9 10 "b" r1 (some [("text", JsVal.str "yo")])
            (some [("id", JsVal.str "b")]) { twoRoomsOpenState with clock := 10 }).1.subs
          (Target.room r1) :=
  ⟨rfl, rfl, rfl, by decide, by decide,
    (C12_newMessage_reaches_group twoRoomsOpenRun twoRoomsOpenState rfl 9 1 "b" r1
      [("text", JsVal.str "yo")] [("id", JsVal.str "b")]
      ((JsMap.get twoRoomsOpenState.rooms r1).getD (newRoom r1))
      (sendMessage 9 10 "b" r1 (some [("text", JsVal.str "yo")])
        (some [("id", JsVal.str "b")]) { twoRoomsOpenState with clock := 10 }).1
      (sendMessage 9 10 "b" r1 (some [("text", JsVal.str "yo")])
        (some [("id", JsVal.str "b")]) { twoRoomsOpenState with clock := 10 }).2
      rfl rfl).2.2.2.2.1 "a" (Or.inr (by decide)) (by decide)⟩

/-- C12 (as stated) fails on both counts.  Connection `a` joined `r1`, then `r2`, and
closed, so `r1` still lists it as a member besides `b`; connection `z`, which never
joined, sends a message to `r1`.  The one `newMessage` goes to the broadcast group of
`r1`, which is `b` alone: neither the member `a` nor the sending connection `z` receives
it. -/
theorem C12_counterexample :
    run init ghostRun = some ghostState ∧
      ∃ room s1 out, JsMap.get ghostState.rooms r1 = some room ∧
        JsMap.keys room.users = ["a", "b"] ∧
        step ghostState 10 (Event.sendMessage "z" r1 hiMessage aliceSender 0)
          = some (s1, out) ∧
        out.map (fun e => e.target) = [Target.room r1] ∧
        out.flatMap (fun e => recipients s1.subs e.target) = ["b"] ∧
        "a" ∉ out.flatMap (fun e => recipients s1.subs e.target) ∧
        "z" ∉ out.flatMap (fun e => recipients s1.subs e.target) :=
  ⟨rfl, _, _, _, rfl, by decide, rfl, by decide, by decide, by decide, by decide⟩

/-- C13 (amended): after the disconnect of a connection that, before disconnecting, did not
issue `joinRoom` for a room other than the one its registry entry named, whatever the
other connections did, that connection is not a key of the member map of any stored
room. -/
theorem C13_disconnect_removes_member (tr : List (Nat × Event)) (s : ServerState)
    (sid : String) (hrun : run init tr = some s)
    (hsingle : singleRoomRun sid init tr = true) (now : Nat)
    (s1 : ServerState) (out : List Emit)
    (hstep : step s now (Event.disconnect sid) = some (s1, out)) :
    memberRooms s1 sid = [] ∧
      ∀ r room, JsMap.get s1.rooms r = some room → JsMap.has room.users sid = false := by
  have hm : MemberRegistered sid s := run_memberRegistered sid tr init s hrun hsingle
    (init_memberRegistered sid)
  have hm1 : MemberRegistered sid s1 := memberRegistered_step hstep rfl hm
  have hk : KeysNodup s :=
    run_preserves KeysNodup (fun _ _ _ _ _ h hi => keysNodup_step h hi) tr init s hrun
      init_keysNodup
  have hk1 : KeysNodup s1 := keysNodup_step hstep hk
  have hs1 : s1 = (disconnect now sid
      { s with clock := now, subs := s.subs.filter (fun p => decide (p.1 ≠ sid)) }).1 :=
    congrArg Prod.fst (disconnect_step hstep)
  have hnone : JsMap.get s1.users sid = none := by
    rw [hs1]
    exact disconnect_unregisters now sid _
  have hno : ∀ r room, JsMap.get s1.rooms r = some room → JsMap.has room.users sid = false := by
    intro r room hg
    cases hh : JsMap.has room.users sid with
    | false => rfl
    | true =>
      obtain ⟨e, he, _⟩ := hm1 r room hg hh
      rw [hnone] at he
      exact Option.noConfusion he
  refine ⟨List.eq_nil_iff_forall_not_mem.mpr ?_, hno⟩
  intro r hr
  obtain ⟨room, hg, hh⟩ := (mem_memberRooms s1 sid hk1 r).mp hr
  rw [hno r room hg] at hh
  exact Bool.noConfusion hh

/-- Witness for C13: in a run where connection `z` joins two rooms, connection `a`, which
joined only `r1`, closes; it is a member of no room afterwards. -/
theorem C13_disconnect_removes_member_witness :
    run init rogueRun = some rogueState ∧ singleRoomRun "a" init rogueRun = true ∧
      step rogueState 9 (Event.disconnect "a")
        = some (disconnect 9 "a" { rogueState with
            clock := 9, subs := rogueState.subs.filter (fun p => decide (p.1 ≠ "a")) }) ∧
      memberRooms (disconnect 9 "a" { rogueState with
          clock := 9, subs := rogueState.subs.filter (fun p => decide (p.1 ≠ "a")) }).1 "a"
        = [] :=
  ⟨rfl, by decide, rfl,
    (C13_disconnect_removes_member rogueRun rogueState "a" rfl (by decide) 9
      (disconnect 9 "a" { rogueState with
        clock := 9, subs := rogueState.subs.filter (fun p => decide (p.1 ≠ "a")) }).1
      (disconnect 9 "a" { rogueState with
        clock := 9, subs := rogueState.subs.filter (fun p => decide (p.1 ≠ "a")) }).2
      rfl).1⟩

/-- C13 (as stated) fails: connection `a` joins `r1`, then `r2`, and closes at 9; the
disconnect removes it from `r2` only, and it remains a key of the member map of `r1`. -/
theorem C13_counterexample :
    ∃ s s1, run init twoRoomJoins = some s ∧
      step s 9 (Event.disconnect "a") = some (s1, []) ∧
      memberRooms s "a" = [r1, r2] ∧ memberRooms s1 "a" = [r1] :=
  ⟨_, _, rfl, rfl, by decide, by decide⟩

/-- C16 (code at the failing input): a `joinRoom` of `a` for `r1` without a user payload,
sent to the server at start-up, ends by emitting the error event `Failed to join room`;
by then it has created the room, added the member, written the registry entry and
emitted `userJoined` and `roomData`, so the error event is the third of three events and
both stores differ from what they were.  The sibling handler `sendMessage`, run without
its payloads, fails and leaves the state as it was. -/
theorem C16_failed_join_takes_effect :
    (joinRoom 0 "a" r1 none init).2 =
        [{ target := Target.roomExcept r1 "a",
           payload := Payload.userJoined [("id", JsVal.str "a")]
             [[("id", JsVal.str "a"), ("joinedAt", JsVal.date 0)]] },
         { target := Target.socket "a",
           payload := Payload.roomData
             { id := r1, users := [[("id", JsVal.str "a"), ("joinedAt", JsVal.date 0)]],
               messages := [], questions := [], polls := [] } },
         { target := Target.socket "a", payload := Payload.error "Failed to join room" }] ∧
      JsMap.keys init.rooms = [] ∧
      JsMap.keys (joinRoom 0 "a" r1 none init).1.rooms = [r1] ∧
      memberRooms (joinRoom 0 "a" r1 none init).1 "a" = [r1] ∧
      JsMap.has init.users "a" = false ∧
      JsMap.has (joinRoom 0 "a" r1 none init).1.users "a" = true ∧
      (sendMessage 1 1 "a" r1 none none (joinRoom 0 "a" r1 none init).1).1
        = (joinRoom 0 "a" r1 none init).1 :=
  ⟨by decide, by decide, by decide, by decide, by decide, by decide, by decide⟩

/-- C18 (amended): in every reachable state the ids of a room's message log are the decimal
strings of a list of clock values that never decreases along the log and does not exceed
the clock; when those clock values are pairwise different, so are the ids.  A
`sendMessage` that reads clock value `now` (`Date.now()`) appends a message whose id is the
decimal string of `now`; when `now` is later than the clock values read by all earlier
steps, that id differs from every id already in the log. -/
theorem C18_ids_follow_clock (tr : List (Nat × Event)) (s : ServerState)
    (hrun : run init tr = some s) (r : JsVal) (room : Room)
    (hroom : JsMap.get s.rooms r = some room) :
    (∃ ts : List Nat, room.messages.map (fun m => m.id) = ts.map toString ∧
      ts.Pairwise (fun a b => a ≤ b) ∧ (∀ t ∈ ts, t ≤ s.clock) ∧
      (ts.Nodup → (room.messages.map (fun m => m.id)).Nodup)) ∧
    (∀ (now lag : Nat) (sid : String) (m u : JsObj) (s1 : ServerState) (out : List Emit),
      step s now (Event.sendMessage sid r (some m) (some u) lag) = some (s1, out) →
      ∃ room1 msg, JsMap.get s1.rooms r = some room1 ∧
        room1.messages = room.messages ++ [msg] ∧ msg.id = toString now ∧
        (s.clock < now → ∀ m0 ∈ room.messages, m0.id ≠ msg.id)) := by
  have hi : IdsFromClocks s :=
    run_preserves IdsFromClocks (fun _ _ _ _ _ h hi => idsFromClocks_step h hi) tr init s hrun
      init_idsFromClocks
  obtain ⟨ts, h1, h2, h3⟩ := hi r room hroom
  refine ⟨⟨ts, h1, h2, h3, ?_⟩, ?_⟩
  · intro hn
    rw [h1]
    exact List.Nodup.map (fun a b hab => toString_nat_injective a b hab) hn
  · intro now lag sid m u s1 out hstep
    have hsend := sendMessage_step hstep
    rw [sendMessage_present now (now + lag) sid r m u { s with clock := now + lag } room hroom]
      at hsend
    simp only [Prod.mk.injEq] at hsend
    obtain ⟨hs1, _⟩ := hsend
    refine ⟨_, builtMessage now (now + lag) m u, by rw [hs1]; exact JsMap.get_set_self _ _ _,
      rfl, rfl, ?_⟩
    intro hlt m0 hm0 heq
    have hmem : m0.id ∈ room.messages.map (fun m => m.id) := List.mem_map_of_mem _ hm0
    rw [h1] at hmem
    obtain ⟨t, ht, hts⟩ := List.mem_map.mp hmem
    have hid : toString t = toString now := hts.trans heq
    have := toString_nat_injective t now hid
    have hle := h3 t ht
    omega

/-- Witness for C18: the ids of the log of `r1` in the state reached by the sample run, and
a message sent to it at clock value 9. -/
theorem C18_ids_follow_clock_witness :
    run init sampleRun = some sampleState ∧
      JsMap.get sampleState.rooms r1
        = some ((JsMap.get sampleState.rooms r1).getD (newRoom r1)) ∧
      step sampleState 9 (Event.sendMessage "a" r1 (some [("text", JsVal.str "yo")])
          (some [("id", JsVal.str "a")]) 1)
        = some (sendMessage 9 10 "a" r1 (some [("text", JsVal.str "yo")])
            (some [("id", JsVal.str "a")]) { sampleState with clock := 10 }) ∧
      ∃ room1 msg,
        JsMap.get (sendMessage 9 10 "a" r1 (some [("text", JsVal.str "yo")])
          (some [("id", JsVal.str "a")]) { sampleState with clock := 10 }).1.rooms r1
          = some room1 ∧
        room1.messages
          = ((JsMap.get sampleState.rooms r1).getD (newRoom r1)).messages ++ [msg] ∧
        msg.id = toString 9 :=
  ⟨rfl, rfl, rfl,
    ((C18_ids_follow_clock sampleRun sampleState rfl r1
      ((JsMap.get sampleState.rooms r1).getD (newRoom r1)) rfl).2 9 1 "a"
      [("text", JsVal.str "yo")] [("id", JsVal.str "a")]
      (sendMessage 9 10 "a" r1 (some [("text", JsVal.str "yo")])
        (some [("id", JsVal.str "a")]) { sampleState with clock := 10 }).1
      (sendMessage 9 10 "a" r1 (some [("text", JsVal.str "yo")])
        (some [("id", JsVal.str "a")]) { sampleState with clock := 10 }).2 rfl).elim
      fun room1 h => h.elim fun msg hm => ⟨room1, msg, hm.1, hm.2.1, hm.2.2.1⟩⟩

/-- C18 (as stated) fails: two messages sent to `r1` at the same clock value 5 are two
different entries of its log with the same `id`. -/
theorem C18_counterexample :
    ∃ s room m1 m2, run init twoSendsSameClock = some s ∧
      JsMap.get s.rooms r1 = some room ∧ room.messages = [m1, m2] ∧ m1 ≠ m2 ∧
      m1.id = m2.id ∧ m1.id = "5" :=
  ⟨_, _, _, _, rfl, rfl, rfl, by decide, by decide, by decide⟩

/-- C19 (amended): `joinRoom` with a profile `p` stores under the connection's key the
record built from `p`, whose `joinedAt` is the join time; the `id` of that record, and of
the `user` of the `userJoined` event, is the connection id when `p` has no `id` property,
and the `id` property of `p` when it has one. -/
theorem C19_member_id_and_join_time (now : Nat) (sid : String) (r : JsVal) (p : JsObj)
    (s : ServerState) :
    (∃ room1, JsMap.get (joinRoom now sid r (some p) s).1.rooms r = some room1 ∧
      JsMap.get room1.users sid = some (memberRecord sid (some p) now)) ∧
    (∃ users, ({ target := Target.roomExcept r sid,
                 payload := Payload.userJoined (joinedUser sid (some p)) users } : Emit)
      ∈ (joinRoom now sid r (some p) s).2) ∧
    prop (memberRecord sid (some p) now) "joinedAt" = JsVal.date now ∧
    (JsMap.get p "id" = none →
      prop (memberRecord sid (some p) now) "id" = JsVal.str sid ∧
      prop (joinedUser sid (some p)) "id" = JsVal.str sid) ∧
    (∀ v, (JsMap.keys p).Nodup → JsMap.get p "id" = some v →
      prop (memberRecord sid (some p) now) "id" = v ∧
      prop (joinedUser sid (some p)) "id" = v) := by
  refine ⟨⟨_, joinRoom_rooms_self now sid r (some p) s, JsMap.get_set_self _ _ _⟩, ?_, ?_, ?_, ?_⟩
  · refine ⟨JsMap.values (withMember now sid (some p) (roomBefore s r)).users, ?_⟩
    rw [joinRoom_out]
    simp
  · simp [prop, memberRecord, JsMap.get_set_self]
  · intro hnone
    have hj : JsMap.get (joinedUser sid (some p)) "id" = some (JsVal.str sid) := by
      unfold joinedUser spread
      rw [get_foldl_set_of_none p "id" hnone]
      rfl
    refine ⟨?_, by simp [prop, hj]⟩
    unfold prop memberRecord
    rw [JsMap.get_set_ne _ _ (by decide)]
    have hj1 : JsMap.get (spread [("id", JsVal.str sid)] (some p)) "id"
        = some (JsVal.str sid) := hj
    rw [hj1]
    rfl
  · intro v hn hv
    have hj : JsMap.get (joinedUser sid (some p)) "id" = some v := by
      unfold joinedUser spread
      rw [get_foldl_set p hn "id", hv]
    refine ⟨prop_memberRecord_of_profile sid p now hn "id" v hv (by decide), by simp [prop, hj]⟩

/-- Witness for C19: the profile of Alice has no `id`, so her record gets the connection
id. -/
theorem C19_member_id_and_join_time_witness :
    JsMap.get ([("name", JsVal.str "Alice"), ("role", JsVal.str "host")] : JsObj) "id" = none ∧
      prop (memberRecord "a" (some [("name", JsVal.str "Alice"), ("role", JsVal.str "host")]) 0)
        "id" = JsVal.str "a" :=
  ⟨rfl,
    ((C19_member_id_and_join_time 0 "a" r1
      [("name", JsVal.str "Alice"), ("role", JsVal.str "host")] init).2.2.2.1 rfl).1⟩

/-- C19 (as stated) fails: connection `a` joins with a profile that has its own `id`; the
record stored under key `a`, and the `user` of `userJoined`, carry that `id`, not `a`. -/
theorem C19_counterexample :
    ∃ room1 m, JsMap.get (joinRoom 0 "a" r1 (some profileWithId) init).1.rooms r1 = some room1 ∧
      JsMap.get room1.users "a" = some m ∧ prop m "id" = JsVal.str "u-17" ∧
      prop m "id" ≠ JsVal.str "a" ∧ prop (joinedUser "a" (some profileWithId)) "id" ≠ JsVal.str "a" :=
  ⟨_, _, rfl, rfl, by decide, by decide, by decide⟩

end Ask
